import Mathlib

/-
  Verification of the Kleanup manifest-cleaning engine.

  The Go program (package main, Kleanup) decodes a stream of Kubernetes
  objects, dispatches each object to a kind-specific cleaner, and removes
  cluster-assigned or runtime fields.  This file shallowly embeds the data
  model (`KubernetesObject`, YAML values as a tree of string-keyed
  documents, sequences and scalars) and the cleaning functions, and proves
  the specification claims about them.

  Modelling conventions:
  * Go `map[string]interface{}` values become `Fields`, an association list
    of string keys preserving a canonical (insertion) order; Go's map
    iteration order is unspecified, and every embedded operation is
    order-independent in the sense that it only reads, deletes or replaces
    individual keys.
  * A Go `nil` map at a top-level struct field becomes `Option Fields`
    with `none`; an interface holding `nil` becomes `Value.null`.
  * Strings are compared character-wise; Go's byte-indexed operations
    (`strings.LastIndex`, slicing) coincide with the character-indexed
    model on the ASCII data the program manipulates.
  * A Go panic (the unchecked type assertion in `revertPodToDeployment`)
    is modelled by `Option`: `none` is the panic.
-/

mutual

inductive Value where
  | str : String → Value
  | int : Int → Value
  | bool : Bool → Value
  | null : Value
  | obj : Fields → Value
  | arr : Elems → Value

inductive Fields where
  | nil : Fields
  | cons : String → Value → Fields → Fields

inductive Elems where
  | nil : Elems
  | cons : Value → Elems → Elems

end

/-- Build a `Fields` document from a list of key/value pairs. -/
def fieldsOf : List (String × Value) → Fields
  | [] => .nil
  | (k, v) :: rest => .cons k v (fieldsOf rest)

/-- Build an `Elems` sequence from a list of values. -/
def elemsOf : List Value → Elems
  | [] => .nil
  | v :: rest => .cons v (elemsOf rest)

/-- Lookup of a key in a document (Go map indexing `m[k]`). -/
def Fields.get : Fields → String → Option Value
  | .nil, _ => none
  | .cons k v rest, key => if k = key then some v else Fields.get rest key

/-- Removal of a key from a document (Go `delete(m, k)`). -/
def Fields.del : Fields → String → Fields
  | .nil, _ => .nil
  | .cons k v rest, key =>
      if k = key then Fields.del rest key else .cons k v (Fields.del rest key)

/-- Assignment of a key in a document (Go `m[k] = v`): replaces the
binding in place when present, appends otherwise. -/
def Fields.set : Fields → String → Value → Fields
  | .nil, key, val => .cons key val .nil
  | .cons k v rest, key, val =>
      if k = key then .cons k val rest else .cons k v (Fields.set rest key val)

/-- Emptiness of a document (Go `len(m) == 0`). -/
def Fields.isEmpty : Fields → Bool
  | .nil => true
  | .cons _ _ _ => false

/-- Keep exactly the bindings whose key satisfies `p`. -/
def Fields.filterKeys : Fields → (String → Bool) → Fields
  | .nil, _ => .nil
  | .cons k v rest, p =>
      if p k then .cons k v (Fields.filterKeys rest p) else Fields.filterKeys rest p

/-- Emptiness of a sequence. -/
def Elems.isEmpty : Elems → Bool
  | .nil => true
  | .cons _ _ => false

/-- Character-wise prefix test (Go `strings.HasPrefix p-of s`). -/
def strStarts (p s : String) : Bool :=
  p.data.isPrefixOf s.data

/-- Character-wise suffix test (Go `strings.HasSuffix`). -/
def strEnds (suffix s : String) : Bool :=
  suffix.data.isSuffixOf s.data

/-- ASCII upper-casing (Go `strings.ToUpper` on the ASCII data in play). -/
def strToUpper (s : String) : String :=
  String.mk (s.data.map Char.toUpper)

/-- Split a character list on a separator character. -/
def splitCh (sep : Char) : List Char → List (List Char)
  | [] => [[]]
  | c :: rest =>
      let r := splitCh sep rest
      if c = sep then [] :: r
      else
        match r with
        | [] => [[c]]
        | g :: gs => (c :: g) :: gs

/-- Go `strings.Split(s, sep)` for a one-character separator. -/
def goSplit (s : String) (sep : Char) : List String :=
  (splitCh sep s.data).map (fun l => String.mk l)

/-- Character index of the last occurrence of `pat` in `s`
(Go `strings.LastIndex`; coincides with the byte index on ASCII input). -/
def goLastIndex (s pat : String) : Option Nat :=
  (List.range (s.data.length + 1)).foldl
    (fun acc i => if pat.data.isPrefixOf (s.data.drop i) then some i else acc) none

/-- First `n` characters of `s` (Go slice `s[:n]` on ASCII input). -/
def strTake (s : String) (n : Nat) : String :=
  String.mk (s.data.take n)

/-- Go `strings.TrimSuffix`. -/
def strTrimSuffix (s suffix : String) : String :=
  if strEnds suffix s then String.mk (s.data.take (s.data.length - suffix.data.length))
  else s

/-- The top-level structure of a decoded Kubernetes object
(Go struct `KubernetesObject`): `none` models a `nil` Go map. -/
structure KubernetesObject where
  apiVersion : String
  kind : String
  metadata : Option Fields
  spec : Option Fields
  status : Option Fields
  data : Option Fields
  stringData : Option Fields
  type : String

/-- Go struct `CleanupOptions`. -/
structure CleanupOptions where
  removeManagedFields : Bool
  removeStatus : Bool
  removeNamespace : Bool
  removeClusterName : Bool
  removeLabels : List String
  removeAnnotations : List String
  removeEmpty : Bool
  cleanupFinalizers : Bool
  revertToDeployment : Bool
  preserveResourceState : Bool
  resourceStateMode : String

/-- The default options constructed in `main`. -/
def defaultOptions : CleanupOptions :=
  { removeManagedFields := true
    removeStatus := true
    removeNamespace := true
    removeClusterName := false
    removeLabels := []
    removeAnnotations := []
    removeEmpty := true
    cleanupFinalizers := true
    revertToDeployment := true
    preserveResourceState := false
    resourceStateMode := "Desired" }

/-- Assoc-list lookup used for the state classification tables. -/
def lookupFlag : List (String × Bool) → String → Option Bool
  | [], _ => none
  | (k, b) :: rest, key => if k = key then some b else lookupFlag rest key

/-- `resourceStateFields["Deployment"]`. -/
def deploymentStateFields : List (String × Bool) :=
  [("metadata.generation", false), ("spec.replicas", true), ("spec.strategy", true),
   ("spec.template", true), ("status", false)]

/-- `resourceStateFields["Service"]`. -/
def serviceStateFields : List (String × Bool) :=
  [("spec.clusterIP", false), ("spec.clusterIPs", false), ("spec.ports", true),
   ("spec.selector", true), ("status", false)]

/-- `resourceStateFields["Pod"]`. -/
def podStateFields : List (String × Bool) :=
  [("metadata.generation", false), ("spec.containers", true), ("spec.initContainers", true),
   ("spec.nodeName", false), ("spec.nodeSelector", true), ("spec.volumes", true),
   ("status", false)]

/-- The per-kind state classification table `resourceStateFields`
(a flag `true` means desired state, `false` means runtime state). -/
def resourceStateFields (kind : String) : Option (List (String × Bool)) :=
  if kind = "Deployment" then some deploymentStateFields
  else if kind = "Service" then some serviceStateFields
  else if kind = "Pod" then some podStateFields
  else none

/-- Annotation key prefixes removed unconditionally (`annotationPrefixesToRemove`). -/
def annotationPrefixesToRemove : List String :=
  ["kubectl.kubernetes.io/", "deployment.kubernetes.io/", "apps.kubernetes.io/",
   "statefulset.kubernetes.io/", "service.kubernetes.io/", "batch.kubernetes.io/",
   "networking.k8s.io/", "rbac.authorization.k8s.io/", "argocd.argoproj.io/",
   "helm.sh/", "meta.helm.sh/", "fluxcd.io/", "kustomize.config.k8s.io/",
   "reloader.stakater.com/"]

/-- Annotation keys removed by exact match (`annotationExactToRemove`). -/
def annotationExactToRemove : List String :=
  ["kubernetes.io/change-cause", "controller-revision-hash",
   "deprecated.daemonset.template.generation", "pod-template-hash"]

/-- Decision procedure inside `cleanAnnotations`: exact operational keys,
then known prefixes, then the user-provided removal list. -/
def annotationShouldDelete (key : String) (removeAnnotations : List String) : Bool :=
  annotationExactToRemove.contains key
  || annotationPrefixesToRemove.any (fun p => strStarts p key)
  || removeAnnotations.contains key

/-- `cleanAnnotations`: removes every annotation key flagged by
`annotationShouldDelete` (Go collects the keys first, then deletes; the
net effect is this filter). -/
def cleanAnnotations (annotations : Fields) (removeAnnotations : List String) : Fields :=
  annotations.filterKeys (fun k => !(annotationShouldDelete k removeAnnotations))

/-- `cleanLabels`: removes exactly the label keys in the user list. -/
def cleanLabels (labels : Fields) (removeLabels : List String) : Fields :=
  labels.filterKeys (fun k => !(removeLabels.contains k))

mutual

/-- `removeEmptyFields` on an arbitrary decoded value.  Returning `none`
models the Go function returning `nil`.  Scalars pass through; a map keeps
a key when its value cleans to non-nil (the Go branch keeping an
intentionally empty string when the cleaned value is nil is also embedded,
though a string never cleans to nil); empty maps and sequences collapse
to nil. -/
def removeEmptyFields : Value → Option Value
  | .str s => some (.str s)
  | .int n => some (.int n)
  | .bool b => some (.bool b)
  | .null => none
  | .obj m =>
      match removeEmptyFieldsMap m with
      | .nil => none
      | m2 => some (.obj m2)
  | .arr l =>
      match l with
      | .nil => none
      | l0 =>
          match removeEmptyFieldsList l0 with
          | .nil => none
          | l2 => some (.arr l2)

/-- The map case of `removeEmptyFields`: clean every value, keep a key
only when the cleaned value is non-nil (or the original was the empty
string, which is preserved intentionally). -/
def removeEmptyFieldsMap : Fields → Fields
  | .nil => .nil
  | .cons k v rest =>
      let tail := removeEmptyFieldsMap rest
      match removeEmptyFields v with
      | some c => .cons k c tail
      | none =>
          match v with
          | .str s => if s = "" then .cons k (.str "") tail else tail
          | _ => tail

/-- The slice case of `removeEmptyFields`: clean every element and drop
the ones that clean to nil. -/
def removeEmptyFieldsList : Elems → Elems
  | .nil => .nil
  | .cons v rest =>
      let tail := removeEmptyFieldsList rest
      match removeEmptyFields v with
      | some c => .cons c tail
      | none => tail

end

/-- One top-level field of `cleanupEmptyTopLevelFields`: apply
`removeEmptyFields` to an optional top-level map, turning a nil result
into an absent field. -/
def pruneTopField (m : Option Fields) : Option Fields :=
  match m with
  | none => none
  | some m0 =>
      match removeEmptyFields (.obj m0) with
      | some (.obj m2) => some m2
      | _ => none

/-- `cleanupEmptyTopLevelFields`: applies `removeEmptyFields` to each
top-level map field of the object and stores the result back. -/
def cleanupEmptyTopLevelFields (obj : KubernetesObject) : KubernetesObject :=
  { obj with
    metadata := pruneTopField obj.metadata
    spec := pruneTopField obj.spec
    status := pruneTopField obj.status
    data := pruneTopField obj.data
    stringData := pruneTopField obj.stringData }

/-- The nested-path walk inside `removeField`: with one remaining
segment the key is deleted; otherwise the next segment must resolve to a
nested document, and a failed resolution leaves the document unchanged
(Go returns without touching anything; the functional rebuild along the
walked path writes each map back unchanged in that case). -/
def removeInFields (m : Fields) : List String → Fields
  | [] => m
  | [k] => m.del k
  | k :: rest =>
      match m.get k with
      | some (.obj inner) => m.set k (.obj (removeInFields inner rest))
      | _ => m

/-- `removeField`: splits the dot-path; a single segment clears the whole
top-level field; a longer path selects one of the five map-valued
top-level fields and performs the nested walk; any unknown first segment
or nil map is a silent no-op. -/
def removeField (obj : KubernetesObject) (fieldPath : String) : KubernetesObject :=
  match goSplit fieldPath '.' with
  | [] => obj
  | [part] =>
      if part = "metadata" then { obj with metadata := none }
      else if part = "spec" then { obj with spec := none }
      else if part = "status" then { obj with status := none }
      else if part = "data" then { obj with data := none }
      else if part = "stringData" then { obj with stringData := none }
      else if part = "type" then { obj with type := "" }
      else obj
  | part :: rest =>
      if part = "metadata" then
        match obj.metadata with
        | none => obj
        | some m => { obj with metadata := some (removeInFields m rest) }
      else if part = "spec" then
        match obj.spec with
        | none => obj
        | some m => { obj with spec := some (removeInFields m rest) }
      else if part = "status" then
        match obj.status with
        | none => obj
        | some m => { obj with status := some (removeInFields m rest) }
      else if part = "data" then
        match obj.data with
        | none => obj
        | some m => { obj with data := some (removeInFields m rest) }
      else if part = "stringData" then
        match obj.stringData with
        | none => obj
        | some m => { obj with stringData := some (removeInFields m rest) }
      else obj

/-- The deletion block of `GenericMetadataCleaner.Clean`: unconditional
removal of the five cluster-assigned keys, conditional removal of
generation, managed fields, finalizers and namespace. -/
def metadataStepDels (metadata : Fields) (kind : String) (options : CleanupOptions) :
    Fields :=
  let isGenerationRuntime :=
    match resourceStateFields kind with
    | some stateFields =>
        match lookupFlag stateFields "metadata.generation" with
        | some isDesired => !isDesired
        | none => false
    | none => false
  let metadata :=
    ((((metadata.del "creationTimestamp").del "resourceVersion").del
      "selfLink").del "uid").del "ownerReferences"
  let metadata :=
    if !(options.preserveResourceState && options.resourceStateMode = "Runtime"
          && isGenerationRuntime)
    then metadata.del "generation" else metadata
  let metadata :=
    if options.removeManagedFields then metadata.del "managedFields" else metadata
  let metadata :=
    if options.cleanupFinalizers then metadata.del "finalizers" else metadata
  if options.removeNamespace then metadata.del "namespace" else metadata

/-- The annotation block of `GenericMetadataCleaner.Clean`. -/
def metadataStepAnnotations (metadata : Fields) (options : CleanupOptions) : Fields :=
  match metadata.get "annotations" with
  | some (.obj annotations) =>
      let annotations := cleanAnnotations annotations options.removeAnnotations
      if annotations.isEmpty then metadata.del "annotations"
      else metadata.set "annotations" (.obj annotations)
  | _ => metadata

/-- The label block of `GenericMetadataCleaner.Clean`. -/
def metadataStepLabels (metadata : Fields) (options : CleanupOptions) : Fields :=
  match metadata.get "labels" with
  | some (.obj labels) =>
      let labels := cleanLabels labels options.removeLabels
      if labels.isEmpty then metadata.del "labels"
      else metadata.set "labels" (.obj labels)
  | _ => metadata

/-- `GenericMetadataCleaner.Clean`: deletion block, then annotation and
label filtering, in source order; a nil metadata map returns
immediately. -/
def genericMetadataCleanerClean (obj : KubernetesObject) (options : CleanupOptions) :
    KubernetesObject :=
  match obj.metadata with
  | none => obj
  | some metadata =>
      { obj with metadata := some (metadataStepLabels
          (metadataStepAnnotations (metadataStepDels metadata obj.kind options)
            options) options) }

/-- The state-preservation gate: the paths queued for removal from a
kind's classification table under the given mode. -/
def stateFieldsToRemove (stateFields : List (String × Bool)) (mode : String) :
    List String :=
  stateFields.filterMap (fun kv =>
    if (mode = "Desired" && !kv.2) || (mode = "Runtime" && kv.2) then some kv.1
    else none)

/-- The state-preservation block that opens `GenericObjectCleaner.Clean`:
queue the classification-table paths selected by the mode and remove each
of them. -/
def statePreservationStage (obj : KubernetesObject) (options : CleanupOptions) :
    KubernetesObject :=
  if options.preserveResourceState then
    match resourceStateFields obj.kind with
    | some stateFields =>
        (stateFieldsToRemove stateFields options.resourceStateMode).foldl
          removeField obj
    | none => obj
  else obj

/-- The metadata block of `GenericObjectCleaner.Clean`. -/
def metadataStage (obj : KubernetesObject) (options : CleanupOptions) :
    KubernetesObject :=
  if obj.metadata.isSome then genericMetadataCleanerClean obj options else obj

/-- The general status-removal block of `GenericObjectCleaner.Clean`. -/
def statusStage (obj : KubernetesObject) (options : CleanupOptions) :
    KubernetesObject :=
  let isStatusRuntime :=
    match resourceStateFields obj.kind with
    | some stateFields =>
        match lookupFlag stateFields "status" with
        | some isDesired => !isDesired
        | none => false
    | none => false
  if options.removeStatus
      && !(options.preserveResourceState && options.resourceStateMode = "Runtime"
            && isStatusRuntime)
  then { obj with status := none } else obj

/-- `GenericObjectCleaner.Clean`: state-preservation removals first, then
metadata cleaning, then the general status removal, in source order.  The
source ends with `removeEmptyFields(obj)` when `RemoveEmpty` is set, but
that call discards the returned value (and `removeEmptyFields` returns a
pointer-to-struct argument unchanged), so it has no effect and is
embedded as the identity. -/
def genericObjectCleanerClean (obj : KubernetesObject) (options : CleanupOptions) :
    KubernetesObject :=
  statusStage (metadataStage (statePreservationStage obj options) options) options

/-- One entry of a `ports` list: drop a default TCP protocol marker, and
drop the entry when it is an emptied map (non-map entries pass through).
The same logic appears verbatim in `ServiceCleaner.Clean` and in
`cleanContainerSpec`. -/
def cleanPortEntry (p : Value) : Option Value :=
  match p with
  | .obj portMap =>
      let portMap :=
        match portMap.get "protocol" with
        | some (.str protoStr) =>
            if strToUpper protoStr = "TCP" then portMap.del "protocol" else portMap
        | _ => portMap
      if portMap.isEmpty then none else some (.obj portMap)
  | other => some other

/-- A `ports` list after cleaning each entry. -/
def cleanPortsList : Elems → Elems
  | .nil => .nil
  | .cons p rest =>
      let tail := cleanPortsList rest
      match cleanPortEntry p with
      | some q => .cons q tail
      | none => tail

/-- Clean the `ports` key of a map (service spec or container): the list
is rewritten, and removed entirely when it becomes empty. -/
def cleanPortsField (m : Fields) : Fields :=
  match m.get "ports" with
  | some (.arr ports) =>
      match cleanPortsList ports with
      | .nil => m.del "ports"
      | l => m.set "ports" (.arr l)
  | _ => m

/-- `cleanContainerSpec`: removal of defaulted/runtime container fields,
then the ports cleanup.  The `options` argument is accepted and unused,
as in the source. -/
def cleanContainerSpec (container : Fields) (options : CleanupOptions) : Fields :=
  let container :=
    (((((container.del "terminationMessagePath").del
      "terminationMessagePolicy").del "imagePullPolicy").del "tty").del
      "stdin").del "stdinOnce"
  cleanPortsField container

/-- The fixed list of scheduler/runtime pod-spec fields deleted by
`cleanPodSpec`. -/
def podSpecFieldsToRemove : List String :=
  ["nodeName", "dnsPolicy", "schedulerName", "enableServiceLinks",
   "preemptionPolicy", "terminationGracePeriodSeconds", "hostIP", "podIP",
   "podIPs", "hostPID", "hostNetwork", "hostIPC", "hostname", "subdomain",
   "shareProcessNamespace", "runtimeClassName", "readinessGates",
   "setHostnameAsFQDN"]

/-- The per-field re-check of `cleanPodSpec` when state preservation is
enabled: a field with a table entry survives when its flag matches the
mode; a field with no entry is treated as runtime and survives only in
Runtime mode. -/
def podSpecFieldRemovable (field : String) (options : CleanupOptions) : Bool :=
  match resourceStateFields "Pod" with
  | some stateFields =>
      match lookupFlag stateFields ("spec." ++ field) with
      | some isDesired =>
          if options.resourceStateMode = "Desired" && isDesired then false
          else if options.resourceStateMode = "Runtime" && !isDesired then false
          else true
      | none => !(options.resourceStateMode = "Runtime")
  | none => !(options.resourceStateMode = "Runtime")

/-- An element of the `sources` list of a projected volume that carries a
`serviceAccountToken` key (Go checks key presence only). -/
def hasServiceAccountTokenSource : Elems → Bool
  | .nil => false
  | .cons s rest =>
      match s with
      | .obj sourceMap =>
          (sourceMap.get "serviceAccountToken").isSome
          || hasServiceAccountTokenSource rest
      | _ => hasServiceAccountTokenSource rest

/-- The per-volume decision of `cleanPodVolumes`: a volume is removed
(and its name recorded) when it has a string name and either the name
carries the `kube-api-access-` prefix or the volume is a projected
service-account-token volume.  Returns the recorded name. -/
def volumeRemovalName (v : Value) : Option String :=
  match v with
  | .obj volumeMap =>
      match volumeMap.get "name" with
      | some (.str n) =>
          if strStarts "kube-api-access-" n then some n
          else
            let projectedSAT :=
              match volumeMap.get "projected" with
              | some (.obj projected) =>
                  match projected.get "sources" with
                  | some (.arr sources) => hasServiceAccountTokenSource sources
                  | _ => false
              | _ => false
            if projectedSAT then some n else none
      | _ => none
  | _ => none

/-- The first pass of `cleanPodVolumes` over the volumes list: the names
marked for removal and the kept volume entries, in order. -/
def splitVolumes : Elems → (List String × Elems)
  | .nil => ([], .nil)
  | .cons v rest =>
      let pr := splitVolumes rest
      match volumeRemovalName v with
      | some n => (n :: pr.1, pr.2)
      | none => (pr.1, .cons v pr.2)

/-- Filter a `volumeMounts` list against the set of removed volume names:
a mount is dropped exactly when it is a map whose string name is in the
set. -/
def filterMountEntries (volumesToRemove : List String) : Elems → Elems
  | .nil => .nil
  | .cons vm rest =>
      let tail := filterMountEntries volumesToRemove rest
      let keep :=
        match vm with
        | .obj vmMap =>
            match vmMap.get "name" with
            | some (.str n) => !(volumesToRemove.contains n)
            | _ => true
        | _ => true
      if keep then .cons vm tail else tail

/-- The second pass of `cleanPodVolumes` on one container: rewrite its
`volumeMounts` list, deleting the key when the list empties. -/
def cleanMountsInContainer (c : Value) (volumesToRemove : List String) : Value :=
  match c with
  | .obj containerMap =>
      match containerMap.get "volumeMounts" with
      | some (.arr volumeMounts) =>
          match filterMountEntries volumesToRemove volumeMounts with
          | .nil => .obj (containerMap.del "volumeMounts")
          | l => .obj (containerMap.set "volumeMounts" (.arr l))
      | _ => c
  | _ => c

/-- The second pass of `cleanPodVolumes` over a container list. -/
def cleanMountsInList (l : Elems) (volumesToRemove : List String) : Elems :=
  match l with
  | .nil => .nil
  | .cons c rest =>
      .cons (cleanMountsInContainer c volumesToRemove)
        (cleanMountsInList rest volumesToRemove)

/-- Rewrite the mounts of one container-list key (`containers` or
`initContainers`) against the removed-volume names. -/
def filterMountsIn (spec : Fields) (containerType : String)
    (volumesToRemove : List String) : Fields :=
  match spec.get containerType with
  | some (.arr containers) =>
      spec.set containerType (.arr (cleanMountsInList containers volumesToRemove))
  | _ => spec

/-- `cleanPodVolumes`: remove injected credential volumes, record their
names, then filter every container's mount list against that name set;
when no volume was removed the mount lists are untouched. -/
def cleanPodVolumes (spec : Fields) : Fields :=
  match spec.get "volumes" with
  | some (.arr volumes) =>
      let volumesToRemove := (splitVolumes volumes).1
      let cleanedVolumes := (splitVolumes volumes).2
      let spec :=
        match cleanedVolumes with
        | .nil => spec.del "volumes"
        | l => spec.set "volumes" (.arr l)
      match volumesToRemove with
      | [] => spec
      | _ =>
          let spec := filterMountsIn spec "containers" volumesToRemove
          filterMountsIn spec "initContainers" volumesToRemove
  | _ => spec

/-- The container-cleaning loop of `cleanPodSpec` over one list: map
entries are cleaned and dropped only when completely emptied, non-map
entries are kept. -/
def cleanContainerList : Elems → CleanupOptions → Elems
  | .nil, _ => .nil
  | .cons c rest, options =>
      let tail := cleanContainerList rest options
      match c with
      | .obj containerMap =>
          let containerMap := cleanContainerSpec containerMap options
          if containerMap.isEmpty then tail else .cons (.obj containerMap) tail
      | other => .cons other tail

/-- Clean one container-list key of a pod spec, deleting the key when the
cleaned list is empty. -/
def cleanContainersIn (spec : Fields) (containerType : String)
    (options : CleanupOptions) : Fields :=
  match spec.get containerType with
  | some (.arr containers) =>
      match cleanContainerList containers options with
      | .nil => spec.del containerType
      | l => spec.set containerType (.arr l)
  | _ => spec

/-- The field list `cleanPodSpec` deletes: the fixed list, filtered by
the state-preservation re-check when preservation is enabled. -/
def podSpecDelList (options : CleanupOptions) : List String :=
  if options.preserveResourceState then
    podSpecFieldsToRemove.filter (fun f => podSpecFieldRemovable f options)
  else podSpecFieldsToRemove

/-- `cleanPodSpec`: the (possibly preservation-filtered) field deletions,
the container loops, the volume rule, and the final removal of an emptied
volumes list. -/
def cleanPodSpec (spec : Fields) (options : CleanupOptions) : Fields :=
  let spec := (podSpecDelList options).foldl Fields.del spec
  let spec := cleanContainersIn spec "containers" options
  let spec := cleanContainersIn spec "initContainers" options
  let spec := cleanPodVolumes spec
  match spec.get "volumes" with
  | some (.arr .nil) => spec.del "volumes"
  | _ => spec

/-- `deriveBaseName`: strip a trailing `-<hash>-<suffix>` (at the last
occurrence) or a trailing `-<hash>` from a pod name; `none` when neither
pattern matches. -/
def deriveBaseName (podName hash : String) : Option String :=
  let hashSuffixPattern := "-" ++ hash ++ "-"
  match goLastIndex podName hashSuffixPattern with
  | some index => some (strTake podName index)
  | none =>
      let hashSuffix := "-" ++ hash
      if strEnds hashSuffix podName then some (strTrimSuffix podName hashSuffix)
      else none

/-- `revertPodToDeployment`.  `some (false, obj)` is the guarded no-op
(object returned untouched), `some (true, obj2)` the successful
reconstruction.  `none` models the Go panic: once the guard has passed,
the source performs the unchecked type assertion `originalName.(string)`
on `metadata["name"]`, which panics when the name is absent or not a
string. -/
def revertPodToDeployment (obj : KubernetesObject) : Option (Bool × KubernetesObject) :=
  if obj.kind ≠ "Pod" then some (false, obj)
  else
    match obj.metadata with
    | none => some (false, obj)
    | some md =>
        match md.get "labels" with
        | some (.obj podLabels) =>
            match podLabels.get "pod-template-hash" with
            | none => some (false, obj)
            | some hashValue =>
                match hashValue with
                | .str hashStr =>
                    if hashStr = "" then some (false, obj)
                    else
                      match md.get "name" with
                      | some (.str nameStr) =>
                          let deploymentName :=
                            match deriveBaseName nameStr hashStr with
                            | some baseName => baseName
                            | none => nameStr ++ "-reverted"
                          let deploymentLabels :=
                            podLabels.filterKeys (fun k => k ≠ "pod-template-hash")
                          let deploymentLabels :=
                            if deploymentLabels.isEmpty then
                              Fields.cons "app" (.str deploymentName) .nil
                            else deploymentLabels
                          let templateLabels := deploymentLabels
                          let newMetadata :=
                            Fields.cons "name" (.str deploymentName)
                              (Fields.cons "labels" (.obj deploymentLabels) .nil)
                          let newMetadata :=
                            match md.get "namespace" with
                            | some ns => newMetadata.set "namespace" ns
                            | none => newMetadata
                          let newMetadata := newMetadata.del "generateName"
                          -- the original pod spec is moved under the template;
                          -- a nil pod-spec map is stored as the Go nil map,
                          -- modelled as `Value.null`
                          let templateSpecValue :=
                            match obj.spec with
                            | some s => Value.obj s
                            | none => Value.null
                          let newSpec :=
                            Fields.cons "replicas" (.int 1)
                              (Fields.cons "selector"
                                (.obj (Fields.cons "matchLabels" (.obj templateLabels) .nil))
                                (Fields.cons "template"
                                  (.obj (Fields.cons "metadata"
                                    (.obj (Fields.cons "labels" (.obj templateLabels) .nil))
                                    (Fields.cons "spec" templateSpecValue .nil)))
                                  .nil))
                          some (true,
                            { apiVersion := "apps/v1"
                              kind := "Deployment"
                              metadata := some newMetadata
                              spec := some newSpec
                              status := none
                              data := none
                              stringData := none
                              type := "" })
                      | _ => none
                | _ => some (false, obj)
        | _ => some (false, obj)

/-- A recurring shape in the cleaners: do nothing when the spec is nil,
otherwise rewrite it in place. -/
def withSpec (obj : KubernetesObject) (f : Fields → Option Fields) :
    KubernetesObject :=
  match obj.spec with
  | none => obj
  | some spec => { obj with spec := f spec }

/-- The same shape for the data field. -/
def withData (obj : KubernetesObject) (f : Fields → Option Fields) :
    KubernetesObject :=
  match obj.data with
  | none => obj
  | some d => { obj with data := f d }

/-- The same shape for the stringData field. -/
def withStringData (obj : KubernetesObject) (f : Fields → Option Fields) :
    KubernetesObject :=
  match obj.stringData with
  | none => obj
  | some d => { obj with stringData := f d }

/-- The pod-template block shared textually by the Deployment,
StatefulSet and DaemonSet cleaners: strip the template metadata's
creation timestamp (discarding the metadata if it prunes away), clean the
nested pod spec (discarding it if it prunes away). -/
def cleanWorkloadTemplate (spec : Fields) (options : CleanupOptions) : Fields :=
  match spec.get "template" with
  | some (.obj template) =>
      let template :=
        match template.get "metadata" with
        | some (.obj templateMeta) =>
            let templateMeta := templateMeta.del "creationTimestamp"
            match pruneTopField (some templateMeta) with
            | none => template.del "metadata"
            | some tm => template.set "metadata" (.obj tm)
        | _ => template
      let template :=
        match template.get "spec" with
        | some (.obj templateSpec) =>
            let templateSpec := cleanPodSpec templateSpec options
            match pruneTopField (some templateSpec) with
            | none => template.del "spec"
            | some sp => template.set "spec" (.obj sp)
        | _ => template
      spec.set "template" (.obj template)
  | _ => spec

/-- The spec-specific block of `DeploymentCleaner.Clean`. -/
def deploymentSpecStage (spec : Fields) (options : CleanupOptions) : Fields :=
  let spec :=
    if !(options.preserveResourceState && options.resourceStateMode = "Runtime")
    then (spec.del "revisionHistoryLimit").del "progressDeadlineSeconds"
    else spec
  cleanWorkloadTemplate spec options

/-- `DeploymentCleaner.Clean`. -/
def deploymentCleanerClean (obj : KubernetesObject) (options : CleanupOptions) :
    KubernetesObject :=
  let obj := genericObjectCleanerClean obj options
  let obj := withSpec obj (fun spec => some (deploymentSpecStage spec options))
  if options.removeEmpty then cleanupEmptyTopLevelFields obj else obj

/-- The spec-specific block of `StatefulSetCleaner.Clean` (only
`revisionHistoryLimit` is deleted). -/
def statefulSetSpecStage (spec : Fields) (options : CleanupOptions) : Fields :=
  let spec :=
    if !(options.preserveResourceState && options.resourceStateMode = "Runtime")
    then spec.del "revisionHistoryLimit"
    else spec
  cleanWorkloadTemplate spec options

/-- `StatefulSetCleaner.Clean`. -/
def statefulSetCleanerClean (obj : KubernetesObject) (options : CleanupOptions) :
    KubernetesObject :=
  let obj := genericObjectCleanerClean obj options
  let obj := withSpec obj (fun spec => some (statefulSetSpecStage spec options))
  if options.removeEmpty then cleanupEmptyTopLevelFields obj else obj

/-- `DaemonSetCleaner.Clean` (same body as the StatefulSet cleaner). -/
def daemonSetCleanerClean (obj : KubernetesObject) (options : CleanupOptions) :
    KubernetesObject :=
  let obj := genericObjectCleanerClean obj options
  let obj := withSpec obj (fun spec => some (statefulSetSpecStage spec options))
  if options.removeEmpty then cleanupEmptyTopLevelFields obj else obj

/-- The spec-specific block of `ServiceCleaner.Clean`. -/
def serviceSpecStage (spec : Fields) (options : CleanupOptions) : Fields :=
  let spec :=
    if !(options.preserveResourceState && options.resourceStateMode = "Desired")
    then
      ((((spec.del "clusterIP").del "clusterIPs").del "ipFamilies").del
        "ipFamilyPolicy").del "internalTrafficPolicy"
    else spec
  cleanPortsField spec

/-- `ServiceCleaner.Clean`. -/
def serviceCleanerClean (obj : KubernetesObject) (options : CleanupOptions) :
    KubernetesObject :=
  let obj := genericObjectCleanerClean obj options
  let obj := withSpec obj (fun spec => some (serviceSpecStage spec options))
  if options.removeEmpty then cleanupEmptyTopLevelFields obj else obj

/-- `cleanConfigMapData`: removes the last-applied-configuration data
key. -/
def cleanConfigMapData (data : Fields) : Fields :=
  data.del "kubectl.kubernetes.io/last-applied-configuration"

/-- `ConfigMapCleaner.Clean`. -/
def configMapCleanerClean (obj : KubernetesObject) (options : CleanupOptions) :
    KubernetesObject :=
  let obj := genericObjectCleanerClean obj options
  let obj := withData obj (fun d =>
    let d := cleanConfigMapData d
    if d.isEmpty then none else some d)
  if options.removeEmpty then cleanupEmptyTopLevelFields obj else obj

/-- `SecretCleaner.Clean`: generic cleaning, a purely diagnostic note for
default service-account tokens (no mutation), then removal of emptied
data maps. -/
def secretCleanerClean (obj : KubernetesObject) (options : CleanupOptions) :
    KubernetesObject :=
  let obj := genericObjectCleanerClean obj options
  let obj := withData obj (fun d => if d.isEmpty then none else some d)
  let obj := withStringData obj (fun d => if d.isEmpty then none else some d)
  if options.removeEmpty then cleanupEmptyTopLevelFields obj else obj

/-- The common tail of `PodCleaner.Clean` when the object was not
reverted: generic cleaning, pod-spec cleaning, pruning of the emptied
spec, final empty-field cleanup. -/
def podCleanerCleanTail (obj : KubernetesObject) (options : CleanupOptions) :
    KubernetesObject :=
  let obj := genericObjectCleanerClean obj options
  let obj := withSpec obj (fun spec => pruneTopField (some (cleanPodSpec spec options)))
  if options.removeEmpty then cleanupEmptyTopLevelFields obj else obj

/-- The template block run by `PodCleaner.Clean` after a successful
revert: clean the pod spec nested in the new Deployment's template.  When
the template spec holds the Go nil map (`Value.null` in the model), the
source's type assertion succeeds on the nil map, `cleanPodSpec` is a
no-op on it and `removeEmptyFields` returns nil, so the entry is
deleted. -/
def podRevertTemplateStage (spec : Fields) (options : CleanupOptions) : Fields :=
  match spec.get "template" with
  | some (.obj template) =>
      let template :=
        match template.get "spec" with
        | some (.obj templateSpec) =>
            let templateSpec := cleanPodSpec templateSpec options
            match pruneTopField (some templateSpec) with
            | none => template.del "spec"
            | some sp => template.set "spec" (.obj sp)
        | some .null => template.del "spec"
        | _ => template
      spec.set "template" (.obj template)
  | _ => spec

/-- `PodCleaner.Clean`: attempt the revert first; on success re-apply
generic cleaning to the new Deployment and clean the pod spec nested in
its template.  `none` propagates the revert panic. -/
def podCleanerClean (obj : KubernetesObject) (options : CleanupOptions) :
    Option KubernetesObject :=
  if options.revertToDeployment then
    match revertPodToDeployment obj with
    | none => none
    | some (true, robj) =>
        let robj := genericObjectCleanerClean robj options
        let robj := withSpec robj (fun spec => some (podRevertTemplateStage spec options))
        some (if options.removeEmpty then cleanupEmptyTopLevelFields robj else robj)
    | some (false, obj2) => some (podCleanerCleanTail obj2 options)
  else some (podCleanerCleanTail obj options)

/-- The dispatch of `ObjectCleanerFactory.GetCleaner` applied to an
object: kinds with a registered cleaner use it, every other kind falls
back to the generic cleaner. -/
def applyCleanerForKind (kind : String) (obj : KubernetesObject)
    (options : CleanupOptions) : Option KubernetesObject :=
  if kind = "Deployment" then some (deploymentCleanerClean obj options)
  else if kind = "Service" then some (serviceCleanerClean obj options)
  else if kind = "StatefulSet" then some (statefulSetCleanerClean obj options)
  else if kind = "DaemonSet" then some (daemonSetCleanerClean obj options)
  else if kind = "Pod" then podCleanerClean obj options
  else if kind = "ConfigMap" then some (configMapCleanerClean obj options)
  else if kind = "Secret" then some (secretCleanerClean obj options)
  else some (genericObjectCleanerClean obj options)

/-- `cleanupKubernetesObject`: an object with an empty kind is skipped
(returned untouched), otherwise its kind's cleaner runs.  `none` models
the revert panic propagating out of the Pod cleaner. -/
def cleanupKubernetesObject (obj : KubernetesObject) (options : CleanupOptions) :
    Option KubernetesObject :=
  if obj.kind = "" then some obj
  else applyCleanerForKind obj.kind obj options

/-- The document loop of `cleanupManifest` on the already-decoded
stream: documents missing kind or apiVersion (or both) are skipped and
never written; the remaining documents are cleaned and emitted in input
order; a panic aborts the whole run (`none`). -/
def cleanupManifestDocs : List KubernetesObject → CleanupOptions →
    Option (List KubernetesObject)
  | [], _ => some []
  | obj :: rest, options =>
      if obj.kind = "" && obj.apiVersion = "" then cleanupManifestDocs rest options
      else if obj.kind = "" then cleanupManifestDocs rest options
      else if obj.apiVersion = "" then cleanupManifestDocs rest options
      else
        match cleanupKubernetesObject obj options with
        | none => none
        | some cleaned => (cleanupManifestDocs rest options).map (cleaned :: ·)

/-
  Observers used to state the claims.
-/

/-- Walk a dot-path through an optional document, reading nested
documents. -/
def getPath (m : Option Fields) (path : List String) : Option Value :=
  path.foldl
    (fun acc k =>
      match acc with
      | some (.obj d) => d.get k
      | _ => none)
    (m.map Value.obj)

/-- The string names declared by the (map-shaped) entries of a volumes
list. -/
def elemsVolNames : Elems → List String
  | .nil => []
  | .cons v rest =>
      match v with
      | .obj m =>
          match m.get "name" with
          | some (.str n) => n :: elemsVolNames rest
          | _ => elemsVolNames rest
      | _ => elemsVolNames rest

/-- The names of the volumes declared in a pod spec. -/
def volumeNames (spec : Fields) : List String :=
  match spec.get "volumes" with
  | some (.arr l) => elemsVolNames l
  | _ => []

/-- The volume names referenced by the entries of a `volumeMounts`
list. -/
def mountEntryNames : Elems → List String
  | .nil => []
  | .cons vm rest =>
      (match vm with
       | .obj vmMap =>
           match vmMap.get "name" with
           | some (.str n) => [n]
           | _ => []
       | _ => []) ++ mountEntryNames rest

/-- The volume names referenced by one container's mounts. -/
def mountNamesOfContainer : Value → List String
  | .obj m =>
      match m.get "volumeMounts" with
      | some (.arr vms) => mountEntryNames vms
      | _ => []
  | _ => []

/-- The volume names referenced across a container list. -/
def mountNamesOfElems : Elems → List String
  | .nil => []
  | .cons c rest => mountNamesOfContainer c ++ mountNamesOfElems rest

/-- All volume names referenced by mounts of containers and
init-containers of a pod spec. -/
def containerMountNames (spec : Fields) : List String :=
  (match spec.get "containers" with
   | some (.arr l) => mountNamesOfElems l
   | _ => []) ++
  (match spec.get "initContainers" with
   | some (.arr l) => mountNamesOfElems l
   | _ => [])

/-- Mount/volume consistency of a pod spec: every mount-referenced name
is a declared volume name. -/
def mountVolumeConsistent (spec : Fields) : Bool :=
  (containerMountNames spec).all (fun n => (volumeNames spec).contains n)

mutual

/-- Whether a value is or contains an empty document or an empty
sequence. -/
def valueHasEmpty : Value → Bool
  | .obj m => m.isEmpty || fieldsHasEmpty m
  | .arr l => l.isEmpty || elemsHasEmpty l
  | _ => false

/-- Whether any value bound in a document contains an empty container. -/
def fieldsHasEmpty : Fields → Bool
  | .nil => false
  | .cons _ v rest => valueHasEmpty v || fieldsHasEmpty rest

/-- Whether any element of a sequence contains an empty container. -/
def elemsHasEmpty : Elems → Bool
  | .nil => false
  | .cons v rest => valueHasEmpty v || elemsHasEmpty rest

end

/-- Whether any top-level document of the object contains an empty
nested document or sequence. -/
def objectHasEmptyContainer (obj : KubernetesObject) : Bool :=
  (match obj.metadata with | some m => fieldsHasEmpty m | none => false)
  || (match obj.spec with | some m => fieldsHasEmpty m | none => false)
  || (match obj.status with | some m => fieldsHasEmpty m | none => false)
  || (match obj.data with | some m => fieldsHasEmpty m | none => false)
  || (match obj.stringData with | some m => fieldsHasEmpty m | none => false)

/-
  Specification-side rendering of the path-removal contract (claim C5).
-/

/-- All intermediate segments resolve to nested documents. -/
def resolvesThrough (m : Fields) : List String → Bool
  | [] => true
  | k :: rest =>
      match m.get k with
      | some (.obj inner) => resolvesThrough inner rest
      | _ => false

/-- Apply `f` to the document addressed by the path of intermediate
segments, leaving every sibling binding unchanged. -/
def updateAtPath (m : Fields) : List String → (Fields → Fields) → Fields
  | [], f => f m
  | k :: rest, f =>
      match m.get k with
      | some (.obj inner) => m.set k (.obj (updateAtPath inner rest f))
      | _ => m

/-- Split a list into its leading segments and its last element. -/
def splitLast : List String → Option (List String × String)
  | [] => none
  | [a] => some ([], a)
  | a :: b :: rest =>
      match splitLast (b :: rest) with
      | some pr => some (a :: pr.1, pr.2)
      | none => none

/-- Per the claim: a single-segment path clears the corresponding
top-level field entirely (a segment addressing no field leaves the object
unchanged). -/
def clearTopLevelSpec (obj : KubernetesObject) (seg : String) : KubernetesObject :=
  if seg = "metadata" then { obj with metadata := none }
  else if seg = "spec" then { obj with spec := none }
  else if seg = "status" then { obj with status := none }
  else if seg = "data" then { obj with data := none }
  else if seg = "stringData" then { obj with stringData := none }
  else if seg = "type" then { obj with type := "" }
  else obj

/-- The top-level map a multi-segment path starts from, when the first
segment addresses one of the five map-valued fields and that field is
present. -/
def topLevelMap (obj : KubernetesObject) (seg : String) : Option Fields :=
  if seg = "metadata" then obj.metadata
  else if seg = "spec" then obj.spec
  else if seg = "status" then obj.status
  else if seg = "data" then obj.data
  else if seg = "stringData" then obj.stringData
  else none

/-- Store a rewritten top-level map back into the object. -/
def setTopLevelMap (obj : KubernetesObject) (seg : String) (m : Fields) :
    KubernetesObject :=
  if seg = "metadata" then { obj with metadata := some m }
  else if seg = "spec" then { obj with spec := some m }
  else if seg = "status" then { obj with status := some m }
  else if seg = "data" then { obj with data := some m }
  else if seg = "stringData" then { obj with stringData := some m }
  else obj

/-- The claim's contract for `removeField`, stated as a function: a
single segment clears the whole top-level field; otherwise, when every
intermediate segment resolves to a nested document, exactly the final
segment's key is deleted from the document the path lands in; when any
intermediate segment is missing or not a document the call is a silent
no-op; nothing outside the addressed path changes and no error is
surfaced. -/
def removeFieldSpec (obj : KubernetesObject) (fieldPath : String) : KubernetesObject :=
  match goSplit fieldPath '.' with
  | [] => obj
  | [seg] => clearTopLevelSpec obj seg
  | seg :: rest =>
      match topLevelMap obj seg with
      | none => obj
      | some m =>
          match splitLast rest with
          | none => obj
          | some (intermediate, finalSeg) =>
              if resolvesThrough m intermediate then
                setTopLevelMap obj seg
                  (updateAtPath m intermediate (fun d => d.del finalSeg))
              else obj

/-
  Basic lemmas about document operations.
-/

theorem Fields.get_del_self : (m : Fields) → (k : String) → (m.del k).get k = none
  | .nil, _ => rfl
  | .cons a v rest, k => by
      by_cases h : a = k <;>
        simp [Fields.del, h, Fields.get, Fields.get_del_self rest k]

theorem Fields.get_del_of_ne : (m : Fields) → (k j : String) → j ≠ k →
    (m.del k).get j = m.get j
  | .nil, _, _, _ => rfl
  | .cons a v rest, k, j, h => by
      by_cases hak : a = k
      · subst hak
        simp [Fields.del, Fields.get, Ne.symm h, Fields.get_del_of_ne rest a j h]
      · by_cases haj : a = j <;>
          simp [Fields.del, hak, Fields.get, haj, h, Fields.get_del_of_ne rest k j h]

theorem Fields.get_del_none : (m : Fields) → (k j : String) → m.get j = none →
    (m.del k).get j = none
  | .nil, _, _, _ => rfl
  | .cons a v rest, k, j, h => by
      by_cases haj : a = j
      · simp [Fields.get, haj] at h
      · by_cases hak : a = k <;>
          simp_all [Fields.del, Fields.get, Fields.get_del_none rest k j]

theorem Fields.get_set_self : (m : Fields) → (k : String) → (v : Value) →
    (m.set k v).get k = some v
  | .nil, _, _ => by simp [Fields.set, Fields.get]
  | .cons a w rest, k, v => by
      by_cases h : a = k <;>
        simp [Fields.set, h, Fields.get, Fields.get_set_self rest k v]

theorem Fields.get_set_of_ne : (m : Fields) → (k : String) → (v : Value) →
    (j : String) → j ≠ k → (m.set k v).get j = m.get j
  | .nil, k, v, j, h => by simp [Fields.set, Fields.get, Ne.symm h]
  | .cons a w rest, k, v, j, h => by
      by_cases hak : a = k
      · subst hak
        simp [Fields.set, Fields.get, Ne.symm h]
      · by_cases haj : a = j <;>
          simp [Fields.set, hak, Fields.get, haj, h, Fields.get_set_of_ne rest k v j h]

theorem Fields.set_get_id : (m : Fields) → (k : String) → (v : Value) →
    m.get k = some v → m.set k v = m
  | .nil, k, v, h => by simp [Fields.get] at h
  | .cons a w rest, k, v, h => by
      by_cases hak : a = k
      · subst hak
        simp [Fields.get] at h
        simp [Fields.set, h]
      · simp [Fields.get, hak] at h
        simp [Fields.set, hak, Fields.set_get_id rest k v h]

theorem removeEmptyFieldsMap_get_none : (m : Fields) → (j : String) →
    m.get j = none → (removeEmptyFieldsMap m).get j = none
  | .nil, _, _ => rfl
  | .cons a v rest, j, h => by
      by_cases haj : a = j
      · simp [Fields.get, haj] at h
      · have ih := removeEmptyFieldsMap_get_none rest j (by simpa [Fields.get, haj] using h)
        cases hv : removeEmptyFields v with
        | some c => simp [removeEmptyFieldsMap, hv, Fields.get, haj, ih]
        | none =>
            cases v with
            | str s =>
                by_cases hs : s = "" <;>
                  simp [removeEmptyFieldsMap, hv, hs, Fields.get, haj, ih]
            | int n => simp [removeEmptyFieldsMap, hv, Fields.get, haj, ih]
            | bool b => simp [removeEmptyFieldsMap, hv, Fields.get, haj, ih]
            | null => simp [removeEmptyFieldsMap, hv, Fields.get, haj, ih]
            | obj m2 => simp [removeEmptyFieldsMap, hv, Fields.get, haj, ih]
            | arr l2 => simp [removeEmptyFieldsMap, hv, Fields.get, haj, ih]

/-
  Concrete inputs for the scenario claims.
-/

/-- The labels of the Scenario B pod. -/
def scenarioBLabels : Fields :=
  fieldsOf [("app", .str "myapp"), ("pod-template-hash", .str "abc123")]

/-- The pod spec of the Scenario B pod. -/
def scenarioBPodSpec : Fields :=
  fieldsOf [("containers",
    .arr (elemsOf [.obj (fieldsOf [("name", .str "app"), ("image", .str "nginx")])]))]

/-- The Scenario B pod: label `pod-template-hash: abc123`, name
`myapp-abc123-xk2qz`. -/
def scenarioBPod : KubernetesObject :=
  { apiVersion := "v1"
    kind := "Pod"
    metadata := some (fieldsOf
      [("name", .str "myapp-abc123-xk2qz"), ("labels", .obj scenarioBLabels)])
    spec := some scenarioBPodSpec
    status := none
    data := none
    stringData := none
    type := "" }

/-- Options with only the revert enabled. -/
def scenarioBOptions : CleanupOptions :=
  { removeManagedFields := false
    removeStatus := false
    removeNamespace := false
    removeClusterName := false
    removeLabels := []
    removeAnnotations := []
    removeEmpty := false
    cleanupFinalizers := false
    revertToDeployment := true
    preserveResourceState := false
    resourceStateMode := "Desired" }

/-- C1: for the input Pod with label `pod-template-hash: abc123` and name
`myapp-abc123-xk2qz`, cleaned with the revert option enabled, the output
kind is Deployment, `spec.template.spec` is the original pod spec,
and `spec.selector.matchLabels` is the original labels minus
`pod-template-hash` — in particular `pod-template-hash` is excluded. -/
theorem scenarioB_revert_to_deployment :
    (cleanupKubernetesObject scenarioBPod scenarioBOptions).map (fun o => o.kind)
        = some "Deployment"
      ∧ (cleanupKubernetesObject scenarioBPod scenarioBOptions).bind
          (fun o => getPath o.spec ["template", "spec"]) = some (.obj scenarioBPodSpec)
      ∧ (cleanupKubernetesObject scenarioBPod scenarioBOptions).bind
          (fun o => getPath o.spec ["selector", "matchLabels"])
        = some (.obj (scenarioBLabels.del "pod-template-hash"))
      ∧ (cleanupKubernetesObject scenarioBPod scenarioBOptions).bind
          (fun o => getPath o.spec ["selector", "matchLabels", "pod-template-hash"])
        = none :=
  ⟨rfl, rfl, rfl, rfl⟩

/-- An object of a kind with no specific rule set, whose spec holds an
empty nested document. -/
def unknownKindObject : KubernetesObject :=
  { apiVersion := "v1"
    kind := "Widget"
    metadata := none
    spec := some (fieldsOf [("leftover", .obj .nil)])
    status := none
    data := none
    stringData := none
    type := "" }

/-- Options enabling only the empty-field removal. -/
def removeEmptyOnlyOptions : CleanupOptions :=
  { removeManagedFields := false
    removeStatus := false
    removeNamespace := false
    removeClusterName := false
    removeLabels := []
    removeAnnotations := []
    removeEmpty := true
    cleanupFinalizers := false
    revertToDeployment := false
    preserveResourceState := false
    resourceStateMode := "Desired" }

/-- C2: cleaning an unknown-kind object with remove-empty enabled leaves
it completely unchanged — the Generic cleaner's final
`removeEmptyFields(obj)` call discards its result — so the empty nested
document under `spec` survives, contradicting the claimed invariant. -/
theorem generic_kind_cleaning_keeps_empty_map :
    cleanupKubernetesObject unknownKindObject removeEmptyOnlyOptions
        = some unknownKindObject
      ∧ removeEmptyOnlyOptions.removeEmpty = true
      ∧ objectHasEmptyContainer unknownKindObject = true :=
  ⟨rfl, rfl, rfl⟩

/-- The Scenario D service: one port entry `{port: 80, protocol: TCP}`. -/
def scenarioDService : KubernetesObject :=
  { apiVersion := "v1"
    kind := "Service"
    metadata := some (fieldsOf [("name", .str "web")])
    spec := some (fieldsOf [("ports",
      .arr (elemsOf [.obj (fieldsOf [("port", .int 80), ("protocol", .str "TCP")])]))])
    status := none
    data := none
    stringData := none
    type := "" }

/-- C8: cleaning the Scenario D service under the default options keeps
the single port entry, retains `port: 80` and omits `protocol`. -/
theorem scenarioD_service_port_protocol :
    (cleanupKubernetesObject scenarioDService defaultOptions).bind
        (fun o => getPath o.spec ["ports"])
      = some (.arr (elemsOf [.obj (fieldsOf [("port", .int 80)])])) :=
  rfl

/-- A Pod whose labels carry a non-empty `pod-template-hash` but whose
metadata has no `name` key. -/
def podWithoutName : KubernetesObject :=
  { apiVersion := "v1"
    kind := "Pod"
    metadata := some (fieldsOf
      [("labels", .obj (fieldsOf [("pod-template-hash", .str "abc123")]))])
    spec := none
    status := none
    data := none
    stringData := none
    type := "" }

/-- C9: the revert guard checks only the labels; on a Pod whose labels
carry a non-empty `pod-template-hash` but whose metadata has no string
`name`, `revertPodToDeployment` reaches the unchecked type assertion
`originalName.(string)` and panics (`none` in the model). -/
theorem revert_panics_without_string_name :
    getPath podWithoutName.metadata ["labels", "pod-template-hash"]
        = some (.str "abc123")
      ∧ revertPodToDeployment podWithoutName = none :=
  ⟨rfl, rfl⟩

/-- C10: a decoded document with exactly one of kind and apiVersion
empty is skipped by the manifest loop: it is never cleaned and never
written, so the output equals the processing of the remaining
documents. -/
theorem cleanupManifest_skips_half_identified_docs :
    ∀ (doc : KubernetesObject) (docs : List KubernetesObject)
      (options : CleanupOptions),
      (doc.kind = "" ∧ doc.apiVersion ≠ "") ∨ (doc.kind ≠ "" ∧ doc.apiVersion = "") →
      cleanupManifestDocs (doc :: docs) options = cleanupManifestDocs docs options := by
  intro doc docs options h
  rcases h with ⟨hk, ha⟩ | ⟨hk, ha⟩
  · simp [cleanupManifestDocs, hk, ha]
  · simp [cleanupManifestDocs, hk, ha]

/-- A document with kind empty but apiVersion present. -/
def skippedDoc : KubernetesObject :=
  { apiVersion := "v1"
    kind := ""
    metadata := some (fieldsOf [("name", .str "x")])
    spec := none
    status := none
    data := none
    stringData := none
    type := "" }

theorem cleanupManifest_skips_half_identified_docs_witness :
    ((skippedDoc.kind = "" ∧ skippedDoc.apiVersion ≠ "")
        ∨ (skippedDoc.kind ≠ "" ∧ skippedDoc.apiVersion = ""))
      ∧ cleanupManifestDocs [skippedDoc] defaultOptions
          = cleanupManifestDocs [] defaultOptions :=
  ⟨Or.inl ⟨rfl, by decide⟩,
   cleanupManifest_skips_half_identified_docs skippedDoc [] defaultOptions
     (Or.inl ⟨rfl, by decide⟩)⟩

/-
  Idempotence of the structural pruner (claim C7).
-/

mutual

theorem removeEmptyFields_fix : (v : Value) → (c : Value) →
    removeEmptyFields v = some c → removeEmptyFields c = some c
  | .str s, c, h => by
      simp [removeEmptyFields] at h
      subst h
      simp [removeEmptyFields]
  | .int n, c, h => by
      simp [removeEmptyFields] at h
      subst h
      simp [removeEmptyFields]
  | .bool b, c, h => by
      simp [removeEmptyFields] at h
      subst h
      simp [removeEmptyFields]
  | .null, c, h => by
      simp [removeEmptyFields] at h
  | .obj m, c, h => by
      have hfix := removeEmptyFieldsMap_fix m
      cases hm : removeEmptyFieldsMap m with
      | nil => simp [removeEmptyFields, hm] at h
      | cons a v rest =>
          simp [removeEmptyFields, hm] at h
          subst h
          rw [hm] at hfix
          simp [removeEmptyFields, hfix]
  | .arr l, c, h => by
      cases l with
      | nil => simp [removeEmptyFields] at h
      | cons v0 rest0 =>
          have hfix := removeEmptyFieldsList_fix (.cons v0 rest0)
          cases hl : removeEmptyFieldsList (.cons v0 rest0) with
          | nil => simp [removeEmptyFields, hl] at h
          | cons c0 cs =>
              simp [removeEmptyFields, hl] at h
              subst h
              rw [hl] at hfix
              simp [removeEmptyFields, hfix]

theorem removeEmptyFieldsMap_fix : (m : Fields) →
    removeEmptyFieldsMap (removeEmptyFieldsMap m) = removeEmptyFieldsMap m
  | .nil => rfl
  | .cons k v rest => by
      have ih := removeEmptyFieldsMap_fix rest
      cases hv : removeEmptyFields v with
      | some c =>
          have hc := removeEmptyFields_fix v c hv
          simp [removeEmptyFieldsMap, hv, hc, ih]
      | none =>
          cases v with
          | str s => simp [removeEmptyFields] at hv
          | int n => simp [removeEmptyFieldsMap, hv, ih]
          | bool b => simp [removeEmptyFields] at hv
          | null => simp [removeEmptyFieldsMap, hv, ih]
          | obj m2 => simp [removeEmptyFieldsMap, hv, ih]
          | arr l2 => simp [removeEmptyFieldsMap, hv, ih]

theorem removeEmptyFieldsList_fix : (l : Elems) →
    removeEmptyFieldsList (removeEmptyFieldsList l) = removeEmptyFieldsList l
  | .nil => rfl
  | .cons v rest => by
      have ih := removeEmptyFieldsList_fix rest
      cases hv : removeEmptyFields v with
      | some c =>
          have hc := removeEmptyFields_fix v c hv
          simp [removeEmptyFieldsList, hv, hc, ih]
      | none => simp [removeEmptyFieldsList, hv, ih]

end

/-- C7: applying the structural pruner `removeEmptyFields` twice yields
the same result as applying it once — its output is a fixed point — for
every value: document, sequence, scalar, or absent (`Value.null`, and a
nil input propagates trivially through `bind`). -/
theorem removeEmptyFields_idempotent :
    ∀ v : Value, (removeEmptyFields v).bind removeEmptyFields = removeEmptyFields v := by
  intro v
  cases hv : removeEmptyFields v with
  | none => rfl
  | some c =>
      simpa [Option.bind] using removeEmptyFields_fix v c hv

/-- The nested walk of `removeField` implements the contract: when every
intermediate segment resolves, exactly the final key is deleted at the
landing document; otherwise the document is unchanged. -/
theorem removeInFields_eq_contract : (path : List String) → (m : Fields) →
    path ≠ [] →
    removeInFields m path =
      (match splitLast path with
       | some pr =>
           if resolvesThrough m pr.1 then
             updateAtPath m pr.1 (fun d => d.del pr.2)
           else m
       | none => m)
  | [], _, h => absurd rfl h
  | [k], m, _ => by
      simp [removeInFields, splitLast, resolvesThrough, updateAtPath]
  | k :: k2 :: prest, m, _ => by
      have ih := fun (inner : Fields) =>
        removeInFields_eq_contract (k2 :: prest) inner (by simp)
      cases hg : m.get k with
      | none =>
          cases hs : splitLast (k2 :: prest) with
          | none => simp [removeInFields, hg, splitLast, hs]
          | some pr =>
              simp [removeInFields, hg, splitLast, hs, resolvesThrough]
      | some val =>
          cases val with
          | obj inner =>
              cases hs : splitLast (k2 :: prest) with
              | none =>
                  have hinner := ih inner
                  rw [hs] at hinner
                  simp only [removeInFields, hg, hinner, splitLast, hs]
                  exact Fields.set_get_id m k (.obj inner) hg
              | some pr =>
                  have hinner := ih inner
                  rw [hs] at hinner
                  by_cases hr : resolvesThrough inner pr.1
                  · simp [removeInFields, hg, hinner, splitLast, hs,
                      resolvesThrough, hr, updateAtPath]
                  · simp only [removeInFields, hg, hinner, splitLast, hs,
                      resolvesThrough, hr, if_neg, if_false, Bool.false_eq_true]
                    exact Fields.set_get_id m k (.obj inner) hg
          | str s =>
              cases hs : splitLast (k2 :: prest) with
              | none => simp [removeInFields, hg, splitLast, hs]
              | some pr => simp [removeInFields, hg, splitLast, hs, resolvesThrough]
          | int n =>
              cases hs : splitLast (k2 :: prest) with
              | none => simp [removeInFields, hg, splitLast, hs]
              | some pr => simp [removeInFields, hg, splitLast, hs, resolvesThrough]
          | bool b =>
              cases hs : splitLast (k2 :: prest) with
              | none => simp [removeInFields, hg, splitLast, hs]
              | some pr => simp [removeInFields, hg, splitLast, hs, resolvesThrough]
          | null =>
              cases hs : splitLast (k2 :: prest) with
              | none => simp [removeInFields, hg, splitLast, hs]
              | some pr => simp [removeInFields, hg, splitLast, hs, resolvesThrough]
          | arr l =>
              cases hs : splitLast (k2 :: prest) with
              | none => simp [removeInFields, hg, splitLast, hs]
              | some pr => simp [removeInFields, hg, splitLast, hs, resolvesThrough]

/-- C5: `removeField` satisfies the path contract exactly: a
single-segment path clears the corresponding top-level field entirely;
a longer path deletes exactly the final segment's key from the document
its intermediate segments resolve to, and is a silent no-op whenever an
intermediate segment is missing or not a document; nothing else is
modified and no error is surfaced. -/
theorem removeField_matches_path_contract :
    ∀ (obj : KubernetesObject) (fieldPath : String),
      removeField obj fieldPath = removeFieldSpec obj fieldPath := by
  intro obj fieldPath
  obtain ⟨av, kd, md, sp, st, da, sd, ty⟩ := obj
  simp only [removeField, removeFieldSpec]
  cases hsplit : goSplit fieldPath '.' with
  | nil => rfl
  | cons part rest =>
    cases rest with
    | nil => simp [clearTopLevelSpec]
    | cons p2 prest =>
      have hcontract := fun (m : Fields) =>
        removeInFields_eq_contract (p2 :: prest) m (by simp)
      by_cases h1 : part = "metadata"
      · subst h1
        cases md with
        | none => simp [topLevelMap]
        | some m =>
            simp only [topLevelMap, if_pos rfl, hcontract m]
            cases hs : splitLast (p2 :: prest) with
            | none => simp
            | some pr =>
                by_cases hr : resolvesThrough m pr.1 <;> simp [hr, setTopLevelMap]
      · by_cases h2 : part = "spec"
        · subst h2
          cases sp with
          | none => simp [topLevelMap]
          | some m =>
              simp only [topLevelMap, h1, if_neg h1, if_pos rfl, hcontract m]
              cases hs : splitLast (p2 :: prest) with
              | none => simp [h1]
              | some pr =>
                  by_cases hr : resolvesThrough m pr.1 <;>
                    simp [hr, setTopLevelMap, h1]
        · by_cases h3 : part = "status"
          · subst h3
            cases st with
            | none => simp [topLevelMap, h1, h2]
            | some m =>
                simp only [topLevelMap, if_neg h1, if_neg h2, if_pos rfl, hcontract m]
                cases hs : splitLast (p2 :: prest) with
                | none => simp [h1, h2]
                | some pr =>
                    by_cases hr : resolvesThrough m pr.1 <;>
                      simp [hr, setTopLevelMap, h1, h2]
          · by_cases h4 : part = "data"
            · subst h4
              cases da with
              | none => simp [topLevelMap, h1, h2, h3]
              | some m =>
                  simp only [topLevelMap, if_neg h1, if_neg h2, if_neg h3,
                    if_pos rfl, hcontract m]
                  cases hs : splitLast (p2 :: prest) with
                  | none => simp [h1, h2, h3]
                  | some pr =>
                      by_cases hr : resolvesThrough m pr.1 <;>
                        simp [hr, setTopLevelMap, h1, h2, h3]
            · by_cases h5 : part = "stringData"
              · subst h5
                cases sd with
                | none => simp [topLevelMap, h1, h2, h3, h4]
                | some m =>
                    simp only [topLevelMap, if_neg h1, if_neg h2, if_neg h3,
                      if_neg h4, if_pos rfl, hcontract m]
                    cases hs : splitLast (p2 :: prest) with
                    | none => simp [h1, h2, h3, h4]
                    | some pr =>
                        by_cases hr : resolvesThrough m pr.1 <;>
                          simp [hr, setTopLevelMap, h1, h2, h3, h4]
              · simp [topLevelMap, h1, h2, h3, h4, h5]

/-
  Field-tracking lemmas for the state-mode and metadata claims.
-/

theorem genericMetadataCleanerClean_status (obj : KubernetesObject)
    (options : CleanupOptions) :
    (genericMetadataCleanerClean obj options).status = obj.status := by
  unfold genericMetadataCleanerClean
  cases obj.metadata <;> rfl

theorem genericMetadataCleanerClean_spec (obj : KubernetesObject)
    (options : CleanupOptions) :
    (genericMetadataCleanerClean obj options).spec = obj.spec := by
  unfold genericMetadataCleanerClean
  cases obj.metadata <;> rfl

theorem cleanupEmptyTopLevelFields_status (obj : KubernetesObject) :
    (cleanupEmptyTopLevelFields obj).status = pruneTopField obj.status := rfl

theorem cleanupEmptyTopLevelFields_spec (obj : KubernetesObject) :
    (cleanupEmptyTopLevelFields obj).spec = pruneTopField obj.spec := rfl

example (x : KubernetesObject) : removeField x "status" = { x with status := none } := rfl

theorem removeField_mg_status (x : KubernetesObject) :
    (removeField x "metadata.generation").status = x.status := by
  obtain ⟨av, kd, md, sp, st, da, sd, ty⟩ := x
  cases md <;> rfl

theorem removeField_sr_spec (x : KubernetesObject) :
    (removeField x "spec.replicas").spec =
      (match x.spec with
       | none => none
       | some m => some (m.del "replicas")) := by
  obtain ⟨av, kd, md, sp, st, da, sd, ty⟩ := x
  cases sp <;> rfl

theorem removeField_ss_spec (x : KubernetesObject) :
    (removeField x "spec.strategy").spec =
      (match x.spec with
       | none => none
       | some m => some (m.del "strategy")) := by
  obtain ⟨av, kd, md, sp, st, da, sd, ty⟩ := x
  cases sp <;> rfl

theorem removeField_st_spec (x : KubernetesObject) :
    (removeField x "spec.template").spec =
      (match x.spec with
       | none => none
       | some m => some (m.del "template")) := by
  obtain ⟨av, kd, md, sp, st, da, sd, ty⟩ := x
  cases sp <;> rfl

/-- The "replicas key absent from the spec" tracking predicate. -/
def specReplicasAbsent (obj : KubernetesObject) : Prop :=
  ∀ m, obj.spec = some m → m.get "replicas" = none

theorem specReplicasAbsent_pruneTop (mo : Option Fields)
    (h : ∀ m, mo = some m → m.get "replicas" = none) :
    ∀ m2, pruneTopField mo = some m2 → m2.get "replicas" = none := by
  intro m2 h2
  cases mo with
  | none => simp [pruneTopField] at h2
  | some m =>
      have hm := h m rfl
      simp only [pruneTopField] at h2
      cases hrm : removeEmptyFieldsMap m with
      | nil => simp [removeEmptyFields, hrm] at h2
      | cons a v rest =>
          simp [removeEmptyFields, hrm] at h2
          subst h2
          rw [← hrm]
          exact removeEmptyFieldsMap_get_none m "replicas" hm

example : stateFieldsToRemove deploymentStateFields "Desired"
    = ["metadata.generation", "status"] := rfl
example : stateFieldsToRemove deploymentStateFields "Runtime"
    = ["spec.replicas", "spec.strategy", "spec.template"] := rfl

theorem removeField_status_field (y : KubernetesObject) :
    (removeField y "status").status = none := rfl

theorem metadataStage_status (obj : KubernetesObject) (options : CleanupOptions) :
    (metadataStage obj options).status = obj.status := by
  unfold metadataStage
  split
  · exact genericMetadataCleanerClean_status obj options
  · rfl

theorem metadataStage_spec (obj : KubernetesObject) (options : CleanupOptions) :
    (metadataStage obj options).spec = obj.spec := by
  unfold metadataStage
  split
  · exact genericMetadataCleanerClean_spec obj options
  · rfl

theorem statusStage_spec (obj : KubernetesObject) (options : CleanupOptions) :
    (statusStage obj options).spec = obj.spec := by
  simp only [statusStage]
  split <;> rfl

theorem statusStage_status_none (obj : KubernetesObject) (options : CleanupOptions)
    (h : obj.status = none) : (statusStage obj options).status = none := by
  simp only [statusStage]
  split <;> simp [h]

/-- Status of the generic cleaner's output in Desired mode for a
Deployment: the state-preservation gate removes `status` (flagged
runtime) and nothing later restores it. -/
theorem genericClean_deployment_desired_status (obj : KubernetesObject)
    (options : CleanupOptions) (hk : obj.kind = "Deployment")
    (hp : options.preserveResourceState = true)
    (hm : options.resourceStateMode = "Desired") :
    (genericObjectCleanerClean obj options).status = none := by
  unfold genericObjectCleanerClean
  apply statusStage_status_none
  rw [metadataStage_status]
  unfold statePreservationStage
  rw [hk, hp, hm]
  have h1 : resourceStateFields "Deployment" = some deploymentStateFields := rfl
  simp only [if_pos, h1]
  have hsf : stateFieldsToRemove deploymentStateFields "Desired"
      = ["metadata.generation", "status"] := rfl
  rw [hsf]
  simp only [List.foldl]
  exact removeField_status_field _

/-- Spec of the generic cleaner's output in Runtime mode for a
Deployment: the state-preservation gate removes `spec.replicas` (flagged
desired) and later steps never reinstate it. -/
theorem genericClean_deployment_runtime_replicas (obj : KubernetesObject)
    (options : CleanupOptions) (hk : obj.kind = "Deployment")
    (hp : options.preserveResourceState = true)
    (hm : options.resourceStateMode = "Runtime") :
    specReplicasAbsent (genericObjectCleanerClean obj options) := by
  have h2 : specReplicasAbsent
      (removeField (removeField (removeField obj "spec.replicas") "spec.strategy")
        "spec.template") := by
    intro m hmeq
    have e1 := removeField_sr_spec obj
    have e2 := removeField_ss_spec (removeField obj "spec.replicas")
    have e3 := removeField_st_spec
      (removeField (removeField obj "spec.replicas") "spec.strategy")
    rw [e3] at hmeq
    cases hsp2 : (removeField (removeField obj "spec.replicas") "spec.strategy").spec with
    | none => rw [hsp2] at hmeq; simp at hmeq
    | some m2 =>
        rw [hsp2] at hmeq
        simp at hmeq
        subst hmeq
        rw [e2] at hsp2
        cases hsp1 : (removeField obj "spec.replicas").spec with
        | none => rw [hsp1] at hsp2; simp at hsp2
        | some m1 =>
            rw [hsp1] at hsp2
            simp at hsp2
            subst hsp2
            rw [e1] at hsp1
            cases hsp0 : obj.spec with
            | none => rw [hsp0] at hsp1; simp at hsp1
            | some m0 =>
                rw [hsp0] at hsp1
                simp at hsp1
                subst hsp1
                exact Fields.get_del_none _ _ _
                  (Fields.get_del_none _ _ _ (Fields.get_del_self m0 "replicas"))
  intro m hmeq
  unfold genericObjectCleanerClean at hmeq
  rw [statusStage_spec, metadataStage_spec] at hmeq
  unfold statePreservationStage at hmeq
  rw [hk, hp, hm] at hmeq
  have h1 : resourceStateFields "Deployment" = some deploymentStateFields := rfl
  simp only [if_pos, h1] at hmeq
  have hsf : stateFieldsToRemove deploymentStateFields "Runtime"
      = ["spec.replicas", "spec.strategy", "spec.template"] := rfl
  rw [hsf] at hmeq
  simp only [List.foldl] at hmeq
  exact h2 m hmeq

theorem withSpec_status (obj : KubernetesObject) (f : Fields → Option Fields) :
    (withSpec obj f).status = obj.status := by
  unfold withSpec
  split <;> rfl

theorem withSpec_metadata (obj : KubernetesObject) (f : Fields → Option Fields) :
    (withSpec obj f).metadata = obj.metadata := by
  unfold withSpec
  split <;> rfl

theorem withData_metadata (obj : KubernetesObject) (f : Fields → Option Fields) :
    (withData obj f).metadata = obj.metadata := by
  unfold withData
  split <;> rfl

theorem withStringData_metadata (obj : KubernetesObject) (f : Fields → Option Fields) :
    (withStringData obj f).metadata = obj.metadata := by
  unfold withStringData
  split <;> rfl

theorem cleanupEmptyTopLevelFields_metadata (obj : KubernetesObject) :
    (cleanupEmptyTopLevelFields obj).metadata = pruneTopField obj.metadata := rfl

theorem cleanWorkloadTemplate_get_none (s : Fields) (options : CleanupOptions)
    (k : String) (hk : k ≠ "template") (h : s.get k = none) :
    (cleanWorkloadTemplate s options).get k = none := by
  unfold cleanWorkloadTemplate
  split
  · exact (Fields.get_set_of_ne s "template" _ k hk).trans h
  · exact h

theorem deploymentSpecStage_get_none (s : Fields) (options : CleanupOptions)
    (k : String) (hk : k ≠ "template") (h : s.get k = none) :
    (deploymentSpecStage s options).get k = none := by
  unfold deploymentSpecStage
  apply cleanWorkloadTemplate_get_none _ _ _ hk
  split
  · exact Fields.get_del_none _ _ _ (Fields.get_del_none _ _ _ h)
  · exact h

/-- C6: for a Deployment cleaned twice with the same options apart from
the state mode, with preserve-resource-state enabled, the Desired-mode
output drops the status sub-document and the Runtime-mode output drops
`spec.replicas`, so the two fields never both survive in either output. -/
theorem deployment_state_mode_exclusivity :
    ∀ (obj : KubernetesObject) (options : CleanupOptions),
      obj.kind = "Deployment" →
      options.preserveResourceState = true →
      (deploymentCleanerClean obj
          { options with resourceStateMode := "Desired" }).status = none
      ∧ ∀ m, (deploymentCleanerClean obj
            { options with resourceStateMode := "Runtime" }).spec = some m →
          m.get "replicas" = none := by
  intro obj options hk hp
  constructor
  · have hg := genericClean_deployment_desired_status obj
      { options with resourceStateMode := "Desired" } hk hp rfl
    simp only [deploymentCleanerClean]
    split
    · rw [cleanupEmptyTopLevelFields_status, withSpec_status, hg]
      rfl
    · rw [withSpec_status, hg]
  · intro m hme
    have hg := genericClean_deployment_runtime_replicas obj
      { options with resourceStateMode := "Runtime" } hk hp rfl
    have habs : specReplicasAbsent
        (withSpec (genericObjectCleanerClean obj
            { options with resourceStateMode := "Runtime" })
          (fun spec => some (deploymentSpecStage spec
            { options with resourceStateMode := "Runtime" }))) := by
      intro m2 h2
      unfold withSpec at h2
      cases hgs : (genericObjectCleanerClean obj
          { options with resourceStateMode := "Runtime" }).spec with
      | none => simp [hgs] at h2
      | some spec2 =>
          simp only [hgs] at h2
          simp at h2
          subst h2
          exact deploymentSpecStage_get_none spec2 _ "replicas" (by decide)
            (hg spec2 hgs)
    simp only [deploymentCleanerClean] at hme
    revert hme
    split
    · intro hme
      rw [cleanupEmptyTopLevelFields_spec] at hme
      exact specReplicasAbsent_pruneTop _ habs m hme
    · intro hme
      exact habs m hme

/-- A Deployment carrying both `spec.replicas` and a status. -/
def stateModeDeployment : KubernetesObject :=
  { apiVersion := "apps/v1"
    kind := "Deployment"
    metadata := some (fieldsOf [("name", .str "d")])
    spec := some (fieldsOf [("replicas", .int 3), ("paused", .bool true)])
    status := some (fieldsOf [("observedGeneration", .int 3)])
    data := none
    stringData := none
    type := "" }

/-- The default options with state preservation enabled. -/
def stateModePreserveOptions : CleanupOptions :=
  { defaultOptions with preserveResourceState := true }

theorem deployment_state_mode_exclusivity_witness :
    (deploymentCleanerClean stateModeDeployment
        { stateModePreserveOptions with resourceStateMode := "Desired" }).status = none
      ∧ (deploymentCleanerClean stateModeDeployment
          { stateModePreserveOptions with resourceStateMode := "Runtime" }).spec
        = some (fieldsOf [("paused", .bool true)])
      ∧ (fieldsOf [("paused", .bool true)]).get "replicas" = none :=
  ⟨(deployment_state_mode_exclusivity stateModeDeployment stateModePreserveOptions
      rfl rfl).1,
   rfl,
   (deployment_state_mode_exclusivity stateModeDeployment stateModePreserveOptions
      rfl rfl).2 (fieldsOf [("paused", .bool true)]) rfl⟩

/-
  The metadata invariant (claim C4).
-/

/-- The five cluster-assigned metadata keys are absent. -/
def fiveNone (m : Fields) : Prop :=
  m.get "creationTimestamp" = none ∧ m.get "resourceVersion" = none
    ∧ m.get "selfLink" = none ∧ m.get "uid" = none
    ∧ m.get "ownerReferences" = none

/-- Every metadata map carried by the object is free of the five
cluster-assigned keys. -/
def metaNoForbidden (obj : KubernetesObject) : Prop :=
  ∀ m, obj.metadata = some m → fiveNone m

theorem fiveNone_del (m : Fields) (k : String) (h : fiveNone m) :
    fiveNone (m.del k) :=
  ⟨Fields.get_del_none m k _ h.1, Fields.get_del_none m k _ h.2.1,
   Fields.get_del_none m k _ h.2.2.1, Fields.get_del_none m k _ h.2.2.2.1,
   Fields.get_del_none m k _ h.2.2.2.2⟩

theorem fiveNone_set_annotations (m : Fields) (v : Value) (h : fiveNone m) :
    fiveNone (m.set "annotations" v) :=
  ⟨(Fields.get_set_of_ne m _ v _ (by decide)).trans h.1,
   (Fields.get_set_of_ne m _ v _ (by decide)).trans h.2.1,
   (Fields.get_set_of_ne m _ v _ (by decide)).trans h.2.2.1,
   (Fields.get_set_of_ne m _ v _ (by decide)).trans h.2.2.2.1,
   (Fields.get_set_of_ne m _ v _ (by decide)).trans h.2.2.2.2⟩

theorem fiveNone_set_labels (m : Fields) (v : Value) (h : fiveNone m) :
    fiveNone (m.set "labels" v) :=
  ⟨(Fields.get_set_of_ne m _ v _ (by decide)).trans h.1,
   (Fields.get_set_of_ne m _ v _ (by decide)).trans h.2.1,
   (Fields.get_set_of_ne m _ v _ (by decide)).trans h.2.2.1,
   (Fields.get_set_of_ne m _ v _ (by decide)).trans h.2.2.2.1,
   (Fields.get_set_of_ne m _ v _ (by decide)).trans h.2.2.2.2⟩

theorem fiveNone_base (md : Fields) :
    fiveNone (((((md.del "creationTimestamp").del "resourceVersion").del
      "selfLink").del "uid").del "ownerReferences") := by
  refine ⟨?_, ?_, ?_, ?_, ?_⟩
  · exact Fields.get_del_none _ _ _ (Fields.get_del_none _ _ _
      (Fields.get_del_none _ _ _ (Fields.get_del_none _ _ _
        (Fields.get_del_self md "creationTimestamp"))))
  · exact Fields.get_del_none _ _ _ (Fields.get_del_none _ _ _
      (Fields.get_del_none _ _ _ (Fields.get_del_self _ "resourceVersion")))
  · exact Fields.get_del_none _ _ _ (Fields.get_del_none _ _ _
      (Fields.get_del_self _ "selfLink"))
  · exact Fields.get_del_none _ _ _ (Fields.get_del_self _ "uid")
  · exact Fields.get_del_self _ "ownerReferences"

theorem metadataStepDels_fiveNone (md : Fields) (kind : String)
    (options : CleanupOptions) : fiveNone (metadataStepDels md kind options) := by
  simp only [metadataStepDels]
  split_ifs <;>
    · repeat
        first
        | exact fiveNone_base md
        | apply fiveNone_del

theorem metadataStepAnnotations_fiveNone (md : Fields) (options : CleanupOptions)
    (h : fiveNone md) : fiveNone (metadataStepAnnotations md options) := by
  simp only [metadataStepAnnotations]
  split
  · split
    · exact fiveNone_del md _ h
    · exact fiveNone_set_annotations md _ h
  · exact h

theorem metadataStepLabels_fiveNone (md : Fields) (options : CleanupOptions)
    (h : fiveNone md) : fiveNone (metadataStepLabels md options) := by
  simp only [metadataStepLabels]
  split
  · split
    · exact fiveNone_del md _ h
    · exact fiveNone_set_labels md _ h
  · exact h

theorem genericMetadataCleanerClean_noForbidden (obj : KubernetesObject)
    (options : CleanupOptions) :
    metaNoForbidden (genericMetadataCleanerClean obj options) := by
  intro m hm
  unfold genericMetadataCleanerClean at hm
  cases hmd : obj.metadata with
  | none => simp [hmd] at hm
  | some md =>
      rw [hmd] at hm
      simp at hm
      subst hm
      exact metadataStepLabels_fiveNone _ options
        (metadataStepAnnotations_fiveNone _ options
          (metadataStepDels_fiveNone md obj.kind options))

theorem statusStage_metadata (obj : KubernetesObject) (options : CleanupOptions) :
    (statusStage obj options).metadata = obj.metadata := by
  simp only [statusStage]
  split <;> rfl

theorem genericObjectCleanerClean_noForbidden (obj : KubernetesObject)
    (options : CleanupOptions) :
    metaNoForbidden (genericObjectCleanerClean obj options) := by
  intro m hm
  unfold genericObjectCleanerClean at hm
  rw [statusStage_metadata] at hm
  unfold metadataStage at hm
  revert hm
  split
  · intro hm
    exact genericMetadataCleanerClean_noForbidden _ options m hm
  · intro hm
    rename_i hns
    rw [hm] at hns
    simp at hns

theorem metaNoForbidden_withSpec (obj : KubernetesObject) (f : Fields → Option Fields)
    (h : metaNoForbidden obj) : metaNoForbidden (withSpec obj f) := by
  intro m hm
  rw [withSpec_metadata] at hm
  exact h m hm

theorem metaNoForbidden_withData (obj : KubernetesObject) (f : Fields → Option Fields)
    (h : metaNoForbidden obj) : metaNoForbidden (withData obj f) := by
  intro m hm
  rw [withData_metadata] at hm
  exact h m hm

theorem metaNoForbidden_withStringData (obj : KubernetesObject)
    (f : Fields → Option Fields) (h : metaNoForbidden obj) :
    metaNoForbidden (withStringData obj f) := by
  intro m hm
  rw [withStringData_metadata] at hm
  exact h m hm

/-- Key-absence transfers through the top-level pruning of a map. -/
theorem pruneTopField_get_none (mo : Option Fields) (k : String)
    (h : ∀ m, mo = some m → m.get k = none) :
    ∀ m2, pruneTopField mo = some m2 → m2.get k = none := by
  intro m2 h2
  cases mo with
  | none => simp [pruneTopField] at h2
  | some m =>
      have hm := h m rfl
      simp only [pruneTopField] at h2
      cases hrm : removeEmptyFieldsMap m with
      | nil => simp [removeEmptyFields, hrm] at h2
      | cons a v rest =>
          simp [removeEmptyFields, hrm] at h2
          subst h2
          rw [← hrm]
          exact removeEmptyFieldsMap_get_none m k hm

theorem metaNoForbidden_cleanup (obj : KubernetesObject)
    (h : metaNoForbidden obj) : metaNoForbidden (cleanupEmptyTopLevelFields obj) := by
  intro m hm
  rw [cleanupEmptyTopLevelFields_metadata] at hm
  refine ⟨?_, ?_, ?_, ?_, ?_⟩
  · exact pruneTopField_get_none obj.metadata _ (fun m0 h0 => (h m0 h0).1) m hm
  · exact pruneTopField_get_none obj.metadata _ (fun m0 h0 => (h m0 h0).2.1) m hm
  · exact pruneTopField_get_none obj.metadata _ (fun m0 h0 => (h m0 h0).2.2.1) m hm
  · exact pruneTopField_get_none obj.metadata _ (fun m0 h0 => (h m0 h0).2.2.2.1) m hm
  · exact pruneTopField_get_none obj.metadata _ (fun m0 h0 => (h m0 h0).2.2.2.2) m hm

theorem deploymentCleanerClean_noForbidden (obj : KubernetesObject)
    (options : CleanupOptions) : metaNoForbidden (deploymentCleanerClean obj options) := by
  simp only [deploymentCleanerClean]
  split
  · exact metaNoForbidden_cleanup _ (metaNoForbidden_withSpec _ _
      (genericObjectCleanerClean_noForbidden obj options))
  · exact metaNoForbidden_withSpec _ _
      (genericObjectCleanerClean_noForbidden obj options)

theorem statefulSetCleanerClean_noForbidden (obj : KubernetesObject)
    (options : CleanupOptions) :
    metaNoForbidden (statefulSetCleanerClean obj options) := by
  simp only [statefulSetCleanerClean]
  split
  · exact metaNoForbidden_cleanup _ (metaNoForbidden_withSpec _ _
      (genericObjectCleanerClean_noForbidden obj options))
  · exact metaNoForbidden_withSpec _ _
      (genericObjectCleanerClean_noForbidden obj options)

theorem daemonSetCleanerClean_noForbidden (obj : KubernetesObject)
    (options : CleanupOptions) :
    metaNoForbidden (daemonSetCleanerClean obj options) := by
  simp only [daemonSetCleanerClean]
  split
  · exact metaNoForbidden_cleanup _ (metaNoForbidden_withSpec _ _
      (genericObjectCleanerClean_noForbidden obj options))
  · exact metaNoForbidden_withSpec _ _
      (genericObjectCleanerClean_noForbidden obj options)

theorem serviceCleanerClean_noForbidden (obj : KubernetesObject)
    (options : CleanupOptions) : metaNoForbidden (serviceCleanerClean obj options) := by
  simp only [serviceCleanerClean]
  split
  · exact metaNoForbidden_cleanup _ (metaNoForbidden_withSpec _ _
      (genericObjectCleanerClean_noForbidden obj options))
  · exact metaNoForbidden_withSpec _ _
      (genericObjectCleanerClean_noForbidden obj options)

theorem configMapCleanerClean_noForbidden (obj : KubernetesObject)
    (options : CleanupOptions) :
    metaNoForbidden (configMapCleanerClean obj options) := by
  simp only [configMapCleanerClean]
  split
  · exact metaNoForbidden_cleanup _ (metaNoForbidden_withData _ _
      (genericObjectCleanerClean_noForbidden obj options))
  · exact metaNoForbidden_withData _ _
      (genericObjectCleanerClean_noForbidden obj options)

theorem secretCleanerClean_noForbidden (obj : KubernetesObject)
    (options : CleanupOptions) : metaNoForbidden (secretCleanerClean obj options) := by
  simp only [secretCleanerClean]
  split
  · exact metaNoForbidden_cleanup _ (metaNoForbidden_withStringData _ _
      (metaNoForbidden_withData _ _
        (genericObjectCleanerClean_noForbidden obj options)))
  · exact metaNoForbidden_withStringData _ _ (metaNoForbidden_withData _ _
      (genericObjectCleanerClean_noForbidden obj options))

theorem podCleanerCleanTail_noForbidden (obj : KubernetesObject)
    (options : CleanupOptions) : metaNoForbidden (podCleanerCleanTail obj options) := by
  simp only [podCleanerCleanTail]
  split
  · exact metaNoForbidden_cleanup _ (metaNoForbidden_withSpec _ _
      (genericObjectCleanerClean_noForbidden obj options))
  · exact metaNoForbidden_withSpec _ _
      (genericObjectCleanerClean_noForbidden obj options)

theorem podCleanerClean_noForbidden (obj : KubernetesObject)
    (options : CleanupOptions) (out : KubernetesObject)
    (h : podCleanerClean obj options = some out) : metaNoForbidden out := by
  unfold podCleanerClean at h
  revert h
  split
  · split
    · intro h
      simp at h
    · intro h
      simp at h
      subst h
      split
      · exact metaNoForbidden_cleanup _ (metaNoForbidden_withSpec _ _
          (genericObjectCleanerClean_noForbidden _ options))
      · exact metaNoForbidden_withSpec _ _
          (genericObjectCleanerClean_noForbidden _ options)
    · intro h
      simp at h
      subst h
      exact podCleanerCleanTail_noForbidden _ options
  · intro h
    simp at h
    subst h
    exact podCleanerCleanTail_noForbidden _ options

/-- C4: for every cleaned document of every kind (the dispatcher refuses
an empty kind) and every options, the output's metadata contains none of
creationTimestamp, resourceVersion, selfLink, uid, ownerReferences. -/
theorem cleaned_metadata_has_no_cluster_fields :
    ∀ (obj : KubernetesObject) (options : CleanupOptions) (out : KubernetesObject)
      (m : Fields),
      obj.kind ≠ "" →
      cleanupKubernetesObject obj options = some out →
      out.metadata = some m →
      m.get "creationTimestamp" = none ∧ m.get "resourceVersion" = none
        ∧ m.get "selfLink" = none ∧ m.get "uid" = none
        ∧ m.get "ownerReferences" = none := by
  intro obj options out m hk h hm
  unfold cleanupKubernetesObject at h
  rw [if_neg hk] at h
  unfold applyCleanerForKind at h
  split_ifs at h
  · simp at h; subst h; exact deploymentCleanerClean_noForbidden obj options m hm
  · simp at h; subst h; exact serviceCleanerClean_noForbidden obj options m hm
  · simp at h; subst h; exact statefulSetCleanerClean_noForbidden obj options m hm
  · simp at h; subst h; exact daemonSetCleanerClean_noForbidden obj options m hm
  · exact podCleanerClean_noForbidden obj options out h m hm
  · simp at h; subst h; exact configMapCleanerClean_noForbidden obj options m hm
  · simp at h; subst h; exact secretCleanerClean_noForbidden obj options m hm
  · simp at h; subst h; exact genericObjectCleanerClean_noForbidden obj options m hm

/-- An unknown-kind object whose metadata carries all five
cluster-assigned keys. -/
def metadataInvariantInput : KubernetesObject :=
  { apiVersion := "v1"
    kind := "Widget"
    metadata := some (fieldsOf
      [("name", .str "w"), ("uid", .str "123"), ("creationTimestamp", .str "t"),
       ("resourceVersion", .str "5"), ("selfLink", .str "sl"),
       ("ownerReferences", .arr (elemsOf [.str "rs"]))])
    spec := none
    status := none
    data := none
    stringData := none
    type := "" }

/-- Its cleaned form under `removeEmptyOnlyOptions`. -/
def metadataInvariantOutput : KubernetesObject :=
  { metadataInvariantInput with metadata := some (fieldsOf [("name", .str "w")]) }

theorem cleaned_metadata_has_no_cluster_fields_witness :
    metadataInvariantInput.kind ≠ ""
      ∧ cleanupKubernetesObject metadataInvariantInput removeEmptyOnlyOptions
          = some metadataInvariantOutput
      ∧ metadataInvariantOutput.metadata = some (fieldsOf [("name", .str "w")])
      ∧ (fieldsOf [("name", .str "w")]).get "uid" = none :=
  ⟨by decide, rfl, rfl,
   (cleaned_metadata_has_no_cluster_fields metadataInvariantInput
      removeEmptyOnlyOptions metadataInvariantOutput (fieldsOf [("name", .str "w")])
      (by decide) rfl rfl).2.2.2.1⟩

/-
  Mount/volume consistency (claim C3).
-/

theorem get_foldl_del : (L : List String) → (m : Fields) → (k : String) →
    k ∉ L → (L.foldl Fields.del m).get k = m.get k
  | [], _, _, _ => rfl
  | f :: rest, m, k, hk => by
      have h1 : k ≠ f := fun he => hk (he ▸ List.mem_cons_self f rest)
      have h2 : k ∉ rest := fun he => hk (List.mem_cons_of_mem f he)
      simp only [List.foldl]
      rw [get_foldl_del rest (m.del f) k h2, Fields.get_del_of_ne m f k h1]

theorem cleanContainersIn_get_ne (spec : Fields) (containerType : String)
    (options : CleanupOptions) (k : String) (h : k ≠ containerType) :
    (cleanContainersIn spec containerType options).get k = spec.get k := by
  unfold cleanContainersIn
  split
  · split
    · exact Fields.get_del_of_ne spec containerType k h
    · exact Fields.get_set_of_ne spec containerType _ k h
  · rfl

theorem cleanPortsField_get_ne (m : Fields) (k : String) (h : k ≠ "ports") :
    (cleanPortsField m).get k = m.get k := by
  unfold cleanPortsField
  split
  · split
    · exact Fields.get_del_of_ne m "ports" k h
    · exact Fields.get_set_of_ne m "ports" _ k h
  · rfl

theorem cleanContainerSpec_volumeMounts (m : Fields) (options : CleanupOptions) :
    (cleanContainerSpec m options).get "volumeMounts" = m.get "volumeMounts" := by
  unfold cleanContainerSpec
  rw [cleanPortsField_get_ne _ _ (by decide)]
  rw [Fields.get_del_of_ne _ _ _ (by decide), Fields.get_del_of_ne _ _ _ (by decide),
    Fields.get_del_of_ne _ _ _ (by decide), Fields.get_del_of_ne _ _ _ (by decide),
    Fields.get_del_of_ne _ _ _ (by decide), Fields.get_del_of_ne _ _ _ (by decide)]

theorem filterMountsIn_get_ne (spec : Fields) (containerType : String)
    (volumesToRemove : List String) (k : String) (h : k ≠ containerType) :
    (filterMountsIn spec containerType volumesToRemove).get k = spec.get k := by
  unfold filterMountsIn
  split
  · exact Fields.get_set_of_ne spec containerType _ k h
  · rfl

/-- `volumeNames` only depends on the `volumes` binding. -/
theorem volumeNames_congr (m m2 : Fields) (h : m2.get "volumes" = m.get "volumes") :
    volumeNames m2 = volumeNames m := by
  unfold volumeNames
  rw [h]

theorem mountNamesOfContainer_cleanContainerSpec (m : Fields)
    (options : CleanupOptions) :
    mountNamesOfContainer (.obj (cleanContainerSpec m options))
      = mountNamesOfContainer (.obj m) := by
  simp only [mountNamesOfContainer]
  rw [cleanContainerSpec_volumeMounts]

theorem mountNames_cleanContainerList : (l : Elems) → (options : CleanupOptions) →
    (n : String) → n ∈ mountNamesOfElems (cleanContainerList l options) →
    n ∈ mountNamesOfElems l
  | .nil, _, _, h => h
  | .cons c rest, options, n, h => by
      have ih := mountNames_cleanContainerList rest options n
      cases c with
      | obj m =>
          simp only [cleanContainerList] at h
          by_cases he : (cleanContainerSpec m options).isEmpty = true
          · rw [if_pos he] at h
            exact List.mem_append_right _ (ih h)
          · rw [if_neg he] at h
            simp only [mountNamesOfElems,
              mountNamesOfContainer_cleanContainerSpec] at h
            rcases List.mem_append.mp h with h2 | h2
            · exact List.mem_append_left _ h2
            · exact List.mem_append_right _ (ih h2)
      | str s =>
          simp only [cleanContainerList, mountNamesOfElems, mountNamesOfContainer] at h
          simp only [mountNamesOfElems, mountNamesOfContainer]
          simpa using ih (by simpa using h)
      | int v =>
          simp only [cleanContainerList, mountNamesOfElems, mountNamesOfContainer] at h
          simp only [mountNamesOfElems, mountNamesOfContainer]
          simpa using ih (by simpa using h)
      | bool b =>
          simp only [cleanContainerList, mountNamesOfElems, mountNamesOfContainer] at h
          simp only [mountNamesOfElems, mountNamesOfContainer]
          simpa using ih (by simpa using h)
      | null =>
          simp only [cleanContainerList, mountNamesOfElems, mountNamesOfContainer] at h
          simp only [mountNamesOfElems, mountNamesOfContainer]
          simpa using ih (by simpa using h)
      | arr l2 =>
          simp only [cleanContainerList, mountNamesOfElems, mountNamesOfContainer] at h
          simp only [mountNamesOfElems, mountNamesOfContainer]
          simpa using ih (by simpa using h)

theorem volumeRemovalName_name (v : Value) (x : String)
    (h : volumeRemovalName v = some x) :
    ∃ m, v = .obj m ∧ m.get "name" = some (.str x) := by
  cases v with
  | obj m =>
      refine ⟨m, rfl, ?_⟩
      simp only [volumeRemovalName] at h
      cases hn : m.get "name" with
      | none => rw [hn] at h; simp at h
      | some val =>
          cases val with
          | str n0 =>
              rw [hn] at h
              simp only [] at h
              split_ifs at h with h1 h2 <;> simp_all
          | int v2 => rw [hn] at h; simp at h
          | bool b => rw [hn] at h; simp at h
          | null => rw [hn] at h; simp at h
          | obj m2 => rw [hn] at h; simp at h
          | arr l2 => rw [hn] at h; simp at h
  | str s => simp [volumeRemovalName] at h
  | int v2 => simp [volumeRemovalName] at h
  | bool b => simp [volumeRemovalName] at h
  | null => simp [volumeRemovalName] at h
  | arr l2 => simp [volumeRemovalName] at h

theorem splitVolumes_kept_of_empty : (volumes : Elems) →
    (splitVolumes volumes).1 = [] → (splitVolumes volumes).2 = volumes
  | .nil, _ => rfl
  | .cons v rest, h => by
      simp only [splitVolumes] at h ⊢
      cases hr : volumeRemovalName v with
      | some n0 =>
          rw [hr] at h
          have h2 : n0 :: (splitVolumes rest).1 = [] := h
          simp at h2
      | none =>
          rw [hr] at h
          have h2 : (splitVolumes rest).1 = [] := h
          show Elems.cons v (splitVolumes rest).2 = Elems.cons v rest
          rw [splitVolumes_kept_of_empty rest h2]

theorem elemsVolNames_kept : (volumes : Elems) → (n : String) →
    n ∈ elemsVolNames volumes → n ∉ (splitVolumes volumes).1 →
    n ∈ elemsVolNames (splitVolumes volumes).2
  | .nil, _, h, _ => h
  | .cons v rest, n, hmem, hnot => by
      have ih := elemsVolNames_kept rest n
      cases hr : volumeRemovalName v with
      | some n0 =>
          obtain ⟨m, hv, hname⟩ := volumeRemovalName_name v n0 hr
          subst hv
          simp only [splitVolumes, hr] at hnot ⊢
          simp only [elemsVolNames, hname] at hmem
          have hne : n ≠ n0 := fun he => hnot (by simp [he])
          have hmem2 : n ∈ elemsVolNames rest := by
            rcases List.mem_cons.mp hmem with h2 | h2
            · exact absurd h2 hne
            · exact h2
          exact ih hmem2 (fun he => hnot (by simp [he]))
      | none =>
          simp only [splitVolumes, hr] at hnot ⊢
          cases v with
          | obj m =>
              cases hname : m.get "name" with
              | some val =>
                  cases val with
                  | str nv =>
                      simp only [elemsVolNames, hname] at hmem ⊢
                      rcases List.mem_cons.mp hmem with h2 | h2
                      · exact h2 ▸ List.mem_cons_self nv _
                      · exact List.mem_cons_of_mem nv (ih h2 hnot)
                  | int v2 =>
                      simp only [elemsVolNames, hname] at hmem ⊢
                      exact ih hmem hnot
                  | bool b =>
                      simp only [elemsVolNames, hname] at hmem ⊢
                      exact ih hmem hnot
                  | null =>
                      simp only [elemsVolNames, hname] at hmem ⊢
                      exact ih hmem hnot
                  | obj m2 =>
                      simp only [elemsVolNames, hname] at hmem ⊢
                      exact ih hmem hnot
                  | arr l2 =>
                      simp only [elemsVolNames, hname] at hmem ⊢
                      exact ih hmem hnot
              | none =>
                  simp only [elemsVolNames, hname] at hmem ⊢
                  exact ih hmem hnot
          | str s =>
              simp only [elemsVolNames] at hmem ⊢
              exact ih hmem hnot
          | int v2 =>
              simp only [elemsVolNames] at hmem ⊢
              exact ih hmem hnot
          | bool b =>
              simp only [elemsVolNames] at hmem ⊢
              exact ih hmem hnot
          | null =>
              simp only [elemsVolNames] at hmem ⊢
              exact ih hmem hnot
          | arr l2 =>
              simp only [elemsVolNames] at hmem ⊢
              exact ih hmem hnot

theorem mountEntryNames_filter : (volumesToRemove : List String) → (vms : Elems) →
    (n : String) → n ∈ mountEntryNames (filterMountEntries volumesToRemove vms) →
    n ∉ volumesToRemove ∧ n ∈ mountEntryNames vms
  | _, .nil, _, h => ⟨by simp [mountEntryNames] at h, h⟩
  | volumesToRemove, .cons vm rest, n, h => by
      have ih := mountEntryNames_filter volumesToRemove rest n
      cases vm with
      | obj vmMap =>
          cases hn : vmMap.get "name" with
          | some val =>
              cases val with
              | str n0 =>
                  simp only [filterMountEntries, hn] at h
                  cases hc : volumesToRemove.contains n0 with
                  | true =>
                      rw [hc] at h
                      have h3 : n ∈ mountEntryNames
                          (filterMountEntries volumesToRemove rest) := h
                      obtain ⟨h1, h2⟩ := ih h3
                      exact ⟨h1, by
                        simp only [mountEntryNames, hn]
                        exact List.mem_append_right _ h2⟩
                  | false =>
                      rw [hc] at h
                      have h3 : n ∈ mountEntryNames (Elems.cons (Value.obj vmMap)
                          (filterMountEntries volumesToRemove rest)) := h
                      simp only [mountEntryNames, hn] at h3 ⊢
                      rcases List.mem_append.mp h3 with h2 | h2
                      · simp at h2
                        subst h2
                        refine ⟨fun hmem => ?_, by simp⟩
                        have hct : volumesToRemove.contains n = true := by
                          simpa using hmem
                        rw [hc] at hct
                        exact Bool.noConfusion hct
                      · obtain ⟨h1, h4⟩ := ih h2
                        exact ⟨h1, List.mem_append_right _ h4⟩
              | int v2 =>
                  simp only [filterMountEntries, hn, if_pos] at h
                  simp only [mountEntryNames, hn] at h ⊢
                  obtain ⟨h1, h3⟩ := ih (by simpa using h)
                  exact ⟨h1, by simpa using h3⟩
              | bool b =>
                  simp only [filterMountEntries, hn, if_pos] at h
                  simp only [mountEntryNames, hn] at h ⊢
                  obtain ⟨h1, h3⟩ := ih (by simpa using h)
                  exact ⟨h1, by simpa using h3⟩
              | null =>
                  simp only [filterMountEntries, hn, if_pos] at h
                  simp only [mountEntryNames, hn] at h ⊢
                  obtain ⟨h1, h3⟩ := ih (by simpa using h)
                  exact ⟨h1, by simpa using h3⟩
              | obj m2 =>
                  simp only [filterMountEntries, hn, if_pos] at h
                  simp only [mountEntryNames, hn] at h ⊢
                  obtain ⟨h1, h3⟩ := ih (by simpa using h)
                  exact ⟨h1, by simpa using h3⟩
              | arr l2 =>
                  simp only [filterMountEntries, hn, if_pos] at h
                  simp only [mountEntryNames, hn] at h ⊢
                  obtain ⟨h1, h3⟩ := ih (by simpa using h)
                  exact ⟨h1, by simpa using h3⟩
          | none =>
              simp only [filterMountEntries, hn, if_pos] at h
              simp only [mountEntryNames, hn] at h ⊢
              obtain ⟨h1, h3⟩ := ih (by simpa using h)
              exact ⟨h1, by simpa using h3⟩
      | str s =>
          simp only [filterMountEntries, if_pos] at h
          simp only [mountEntryNames] at h ⊢
          obtain ⟨h1, h3⟩ := ih (by simpa using h)
          exact ⟨h1, by simpa using h3⟩
      | int v2 =>
          simp only [filterMountEntries, if_pos] at h
          simp only [mountEntryNames] at h ⊢
          obtain ⟨h1, h3⟩ := ih (by simpa using h)
          exact ⟨h1, by simpa using h3⟩
      | bool b =>
          simp only [filterMountEntries, if_pos] at h
          simp only [mountEntryNames] at h ⊢
          obtain ⟨h1, h3⟩ := ih (by simpa using h)
          exact ⟨h1, by simpa using h3⟩
      | null =>
          simp only [filterMountEntries, if_pos] at h
          simp only [mountEntryNames] at h ⊢
          obtain ⟨h1, h3⟩ := ih (by simpa using h)
          exact ⟨h1, by simpa using h3⟩
      | arr l2 =>
          simp only [filterMountEntries, if_pos] at h
          simp only [mountEntryNames] at h ⊢
          obtain ⟨h1, h3⟩ := ih (by simpa using h)
          exact ⟨h1, by simpa using h3⟩

theorem podSpecDelList_not_member (options : CleanupOptions) (k : String)
    (h : k ∉ podSpecFieldsToRemove) : k ∉ podSpecDelList options := by
  unfold podSpecDelList
  split
  · exact fun hmem => h (List.mem_of_mem_filter hmem)
  · exact h

theorem containerMountNames_congr (m m2 : Fields)
    (h1 : m2.get "containers" = m.get "containers")
    (h2 : m2.get "initContainers" = m.get "initContainers") :
    containerMountNames m2 = containerMountNames m := by
  unfold containerMountNames
  rw [h1, h2]

theorem mountNames_cleanMountsInContainer (c : Value) (volumesToRemove : List String)
    (n : String)
    (h : n ∈ mountNamesOfContainer (cleanMountsInContainer c volumesToRemove)) :
    n ∉ volumesToRemove ∧ n ∈ mountNamesOfContainer c := by
  cases c with
  | obj cm =>
      simp only [cleanMountsInContainer] at h
      cases hvm : cm.get "volumeMounts" with
      | some val =>
          cases val with
          | arr vms =>
              simp only [hvm] at h
              cases hf : filterMountEntries volumesToRemove vms with
              | nil =>
                  simp only [hf] at h
                  simp only [mountNamesOfContainer, Fields.get_del_self] at h
                  simp at h
              | cons a b =>
                  simp only [hf] at h
                  simp only [mountNamesOfContainer, Fields.get_set_self] at h
                  rw [← hf] at h
                  obtain ⟨h1, h2⟩ := mountEntryNames_filter volumesToRemove vms n h
                  refine ⟨h1, ?_⟩
                  simp only [mountNamesOfContainer, hvm]
                  exact h2
          | str s => simp only [hvm, mountNamesOfContainer] at h; simp at h
          | int v2 => simp only [hvm, mountNamesOfContainer] at h; simp at h
          | bool b => simp only [hvm, mountNamesOfContainer] at h; simp at h
          | null => simp only [hvm, mountNamesOfContainer] at h; simp at h
          | obj m2 => simp only [hvm, mountNamesOfContainer] at h; simp at h
      | none => simp only [hvm, mountNamesOfContainer] at h; simp at h
  | str s => simp only [cleanMountsInContainer, mountNamesOfContainer] at h; simp at h
  | int v2 => simp only [cleanMountsInContainer, mountNamesOfContainer] at h; simp at h
  | bool b => simp only [cleanMountsInContainer, mountNamesOfContainer] at h; simp at h
  | null => simp only [cleanMountsInContainer, mountNamesOfContainer] at h; simp at h
  | arr l2 => simp only [cleanMountsInContainer, mountNamesOfContainer] at h; simp at h

theorem mountNames_cleanMountsInList : (l : Elems) → (volumesToRemove : List String) →
    (n : String) → n ∈ mountNamesOfElems (cleanMountsInList l volumesToRemove) →
    n ∉ volumesToRemove ∧ n ∈ mountNamesOfElems l
  | .nil, _, _, h => by simp [cleanMountsInList, mountNamesOfElems] at h
  | .cons c rest, volumesToRemove, n, h => by
      have ih := mountNames_cleanMountsInList rest volumesToRemove n
      simp only [cleanMountsInList, mountNamesOfElems] at h
      simp only [mountNamesOfElems]
      rcases List.mem_append.mp h with h2 | h2
      · obtain ⟨h1, h3⟩ := mountNames_cleanMountsInContainer c volumesToRemove n h2
        exact ⟨h1, List.mem_append_left _ h3⟩
      · obtain ⟨h1, h3⟩ := ih h2
        exact ⟨h1, List.mem_append_right _ h3⟩

theorem filterMountsIn_get_same (z : Fields) (containerType : String)
    (volumesToRemove : List String) :
    (filterMountsIn z containerType volumesToRemove).get containerType
      = (match z.get containerType with
         | some (.arr l) =>
             some (Value.arr (cleanMountsInList l volumesToRemove))
         | other => other) := by
  unfold filterMountsIn
  cases hc : z.get containerType with
  | some val =>
      cases val with
      | arr cs => exact Fields.get_set_self z containerType _
      | str s => exact hc
      | int v2 => exact hc
      | bool b => exact hc
      | null => exact hc
      | obj m2 => exact hc
  | none => exact hc

theorem mountNames_filterMounts_both (y : Fields) (volumesToRemove : List String)
    (n : String)
    (h : n ∈ containerMountNames (filterMountsIn
      (filterMountsIn y "containers" volumesToRemove) "initContainers"
      volumesToRemove)) :
    n ∉ volumesToRemove := by
  unfold containerMountNames at h
  rcases List.mem_append.mp h with hA | hB
  · rw [filterMountsIn_get_ne _ _ _ _ (by decide),
      filterMountsIn_get_same] at hA
    cases hc : y.get "containers" with
    | some val =>
        cases val with
        | arr cs =>
            rw [hc] at hA
            have hA2 : n ∈ mountNamesOfElems
                (cleanMountsInList cs volumesToRemove) := hA
            exact (mountNames_cleanMountsInList cs volumesToRemove n hA2).1
        | str s => rw [hc] at hA; exact absurd (show n ∈ ([] : List String) from hA) (by simp)
        | int v2 => rw [hc] at hA; exact absurd (show n ∈ ([] : List String) from hA) (by simp)
        | bool b => rw [hc] at hA; exact absurd (show n ∈ ([] : List String) from hA) (by simp)
        | null => rw [hc] at hA; exact absurd (show n ∈ ([] : List String) from hA) (by simp)
        | obj m2 => rw [hc] at hA; exact absurd (show n ∈ ([] : List String) from hA) (by simp)
    | none => rw [hc] at hA; exact absurd (show n ∈ ([] : List String) from hA) (by simp)
  · rw [filterMountsIn_get_same,
      filterMountsIn_get_ne _ _ _ _ (by decide)] at hB
    cases hc : y.get "initContainers" with
    | some val =>
        cases val with
        | arr cs =>
            rw [hc] at hB
            have hB2 : n ∈ mountNamesOfElems
                (cleanMountsInList cs volumesToRemove) := hB
            exact (mountNames_cleanMountsInList cs volumesToRemove n hB2).1
        | str s => rw [hc] at hB; exact absurd (show n ∈ ([] : List String) from hB) (by simp)
        | int v2 => rw [hc] at hB; exact absurd (show n ∈ ([] : List String) from hB) (by simp)
        | bool b => rw [hc] at hB; exact absurd (show n ∈ ([] : List String) from hB) (by simp)
        | null => rw [hc] at hB; exact absurd (show n ∈ ([] : List String) from hB) (by simp)
        | obj m2 => rw [hc] at hB; exact absurd (show n ∈ ([] : List String) from hB) (by simp)
    | none => rw [hc] at hB; exact absurd (show n ∈ ([] : List String) from hB) (by simp)

theorem filterMounts_both_get_volumes (y : Fields) (volumesToRemove : List String) :
    (filterMountsIn (filterMountsIn y "containers" volumesToRemove)
      "initContainers" volumesToRemove).get "volumes" = y.get "volumes" := by
  rw [filterMountsIn_get_ne _ _ _ _ (by decide),
    filterMountsIn_get_ne _ _ _ _ (by decide)]

/-- C3 (amended): cleaning introduces no new dangling mount reference —
every mount name in the output of `cleanPodSpec` that named a volume
present in the input still names a volume present in the output. -/
theorem cleanPodSpec_no_new_dangling_mounts :
    ∀ (spec : Fields) (options : CleanupOptions) (n : String),
      n ∈ containerMountNames (cleanPodSpec spec options) →
      n ∈ volumeNames spec →
      n ∈ volumeNames (cleanPodSpec spec options) := by
  intro spec options n hmn hvn
  simp only [cleanPodSpec] at hmn ⊢
  set s1 := (podSpecDelList options).foldl Fields.del spec with hs1def
  set s2 := cleanContainersIn s1 "containers" options with hs2def
  set s3 := cleanContainersIn s2 "initContainers" options with hs3def
  have hvol3 : s3.get "volumes" = spec.get "volumes" := by
    rw [hs3def, cleanContainersIn_get_ne _ _ _ _ (by decide),
      hs2def, cleanContainersIn_get_ne _ _ _ _ (by decide),
      hs1def, get_foldl_del _ _ _
        (podSpecDelList_not_member options _ (by decide))]
  have hvn3 : n ∈ volumeNames s3 := by
    rw [volumeNames_congr spec s3 hvol3]
    exact hvn
  cases hv : s3.get "volumes" with
  | none => simp [volumeNames, hv] at hvn3
  | some val =>
      cases val with
      | str s => simp [volumeNames, hv] at hvn3
      | int v2 => simp [volumeNames, hv] at hvn3
      | bool b => simp [volumeNames, hv] at hvn3
      | null => simp [volumeNames, hv] at hvn3
      | obj m2 => simp [volumeNames, hv] at hvn3
      | arr volumes =>
          have hvn2 : n ∈ elemsVolNames volumes := by
            simpa [volumeNames, hv] using hvn3
          simp only [cleanPodVolumes, hv] at hmn ⊢
          cases hrem : (splitVolumes volumes).1 with
          | nil =>
              have hkept : (splitVolumes volumes).2 = volumes :=
                splitVolumes_kept_of_empty volumes hrem
              simp only [hrem, hkept] at hmn ⊢
              cases hvols : volumes with
              | nil => subst hvols; simp [elemsVolNames] at hvn2
              | cons v0 vrest =>
                  subst hvols
                  have hgs : (s3.set "volumes"
                      (.arr (Elems.cons v0 vrest))).get "volumes"
                      = some (.arr (Elems.cons v0 vrest)) :=
                    Fields.get_set_self s3 "volumes" _
                  simp only [hgs] at hmn ⊢
                  simpa [volumeNames, hgs] using hvn2
          | cons t ts =>
              simp only [hrem] at hmn ⊢
              cases hkc : (splitVolumes volumes).2 with
              | nil =>
                  have hn_kept : n ∈ elemsVolNames (splitVolumes volumes).2 := by
                    refine elemsVolNames_kept volumes n hvn2 ?_
                    intro hmem
                    rw [hrem] at hmem
                    have hnR : n ∉ t :: ts := by
                      apply mountNames_filterMounts_both (s3.del "volumes") (t :: ts) n
                      revert hmn
                      simp only [hkc]
                      intro hmn
                      have hfg := filterMounts_both_get_volumes (s3.del "volumes")
                        (t :: ts)
                      rw [Fields.get_del_self] at hfg
                      revert hmn
                      split
                      · rename_i hbad
                        rw [hfg] at hbad
                        cases hbad
                      · intro hmn; exact hmn
                    exact hnR hmem
                  rw [hkc] at hn_kept
                  simp [elemsVolNames] at hn_kept
              | cons k0 krest =>
                  have hnR : n ∉ t :: ts := by
                    apply mountNames_filterMounts_both
                      (s3.set "volumes" (.arr (Elems.cons k0 krest))) (t :: ts) n
                    revert hmn
                    simp only [hkc]
                    intro hmn
                    have hfg := filterMounts_both_get_volumes
                      (s3.set "volumes" (.arr (Elems.cons k0 krest))) (t :: ts)
                    rw [Fields.get_set_self] at hfg
                    revert hmn
                    split
                    · rename_i hbad
                      rw [hfg] at hbad
                      cases hbad
                    · intro hmn; exact hmn
                  have hn_kept : n ∈ elemsVolNames (splitVolumes volumes).2 := by
                    refine elemsVolNames_kept volumes n hvn2 ?_
                    intro hmem
                    rw [hrem] at hmem
                    exact hnR hmem
                  rw [hkc] at hn_kept
                  simp only [hkc]
                  have hfg := filterMounts_both_get_volumes
                    (s3.set "volumes" (.arr (Elems.cons k0 krest))) (t :: ts)
                  rw [Fields.get_set_self] at hfg
                  split
                  · rename_i hbad
                    rw [hfg] at hbad
                    cases hbad
                  · simpa [volumeNames, hfg] using hn_kept

/-- A pod spec whose only container mounts a volume that is not declared
in any volumes list. -/
def danglingMountSpec : Fields :=
  fieldsOf [("containers", .arr (elemsOf [.obj (fieldsOf
    [("name", .str "c"),
     ("volumeMounts", .arr (elemsOf [.obj (fieldsOf
        [("name", .str "x"), ("mountPath", .str "/d")])]))])]))]

/-- C3 (counterexample to the claim as stated): a pre-existing dangling
mount reference survives cleaning — the output's only mount names `x`,
the output declares no volumes, so mount/volume consistency fails. -/
theorem mount_consistency_fails_on_dangling_input :
    containerMountNames (cleanPodSpec danglingMountSpec defaultOptions) = ["x"]
      ∧ volumeNames (cleanPodSpec danglingMountSpec defaultOptions) = []
      ∧ mountVolumeConsistent (cleanPodSpec danglingMountSpec defaultOptions)
          = false :=
  ⟨rfl, rfl, rfl⟩

/-- A pod spec with a real volume and an injected credential volume, both
mounted. -/
def mountConsistencySpec : Fields :=
  fieldsOf
    [("volumes", .arr (elemsOf
       [.obj (fieldsOf [("name", .str "data")]),
        .obj (fieldsOf [("name", .str "kube-api-access-abcde")])])),
     ("containers", .arr (elemsOf [.obj (fieldsOf
       [("name", .str "c"),
        ("volumeMounts", .arr (elemsOf
          [.obj (fieldsOf [("name", .str "data"), ("mountPath", .str "/data")]),
           .obj (fieldsOf [("name", .str "kube-api-access-abcde"),
             ("mountPath", .str "/sa")])]))])]))]

theorem cleanPodSpec_no_new_dangling_mounts_witness :
    "data" ∈ containerMountNames (cleanPodSpec mountConsistencySpec defaultOptions)
      ∧ "data" ∈ volumeNames mountConsistencySpec
      ∧ "data" ∈ volumeNames (cleanPodSpec mountConsistencySpec defaultOptions) :=
  ⟨by decide, by decide,
   cleanPodSpec_no_new_dangling_mounts mountConsistencySpec defaultOptions "data"
     (by decide) (by decide)⟩

example : goSplit "spec.replicas" '.' = ["spec", "replicas"] := rfl
example : goSplit "status" '.' = ["status"] := rfl
example : goSplit "" '.' = [""] := rfl
example : strStarts "kube-api-access-" "kube-api-access-x7b2" = true := rfl
example : goLastIndex "myapp-abc123-xk2qz" "-abc123-" = some 5 := rfl
example : strTake "myapp-abc123-xk2qz" 5 = "myapp" := rfl
example : strToUpper "tcp" = "TCP" := rfl
example : removeEmptyFields (.obj .nil) = none := rfl
example :
    removeEmptyFields (.obj (fieldsOf [("a", .obj .nil), ("b", .str "x")]))
      = some (.obj (fieldsOf [("b", .str "x")])) := rfl
example :
    removeEmptyFields (.arr (elemsOf [.null, .int 3]))
      = some (.arr (elemsOf [.int 3])) := rfl
example : annotationShouldDelete "helm.sh/chart" [] = true := rfl
example : annotationShouldDelete "team" [] = false := rfl
